import Mathlib

/-!
# GPXSimplifier: distance-sampled summary of a GPS track

A shallow embedding of `GPXToSimpleDataSet.go` and the properties of its
resampling loop.

The program is embedded twice.

* Over an ordered field `α` (the theorems take `α = ℝ`, with the real functions of
  `realMath` for Go's `math` package): `float64` idealised, without rounding,
  overflow or NaN.  The one place where IEEE arithmetic leaves the field, a division
  by zero, is kept visible: `fdiv` returns `none` there.
* Over an arithmetic `Arith F` (namespace `Machine`), instantiated with `float64`:
  IEEE 754 double precision, every operation rounded to nearest, ties to even, with
  infinities and NaN, and the functions of Go's `math` package as its portable
  implementation computes them.  What is proved for every `Arith F` holds of the
  program's own arithmetic; what is evaluated at `float64` is what the program
  computes.

Common conventions.

* A `time.Time` is an integer, the instant in nanoseconds since the zero value of
  `time.Time`; a `time.Duration` is an integer number of nanoseconds; `Time.Sub`
  saturates at the ends of the `int64` range as the standard library documents.
* The CSV writer is the list of rows handed to it, oldest first, each row with
  its five values before they are formatted as text.
-/

namespace GPXSimplifier

/-! ## Standard library -/

/-- The constant and the functions of Go's `math` package that the program calls. -/
structure MathPkg (α : Type) where
  Pi : α
  Sqrt : α → α
  Sin : α → α
  Cos : α → α
  Asin : α → α

/-- The `math` package over the real numbers: the exact functions, which neither round
nor leave the reals. -/
noncomputable def realMath : MathPkg ℝ where
  Pi := Real.pi
  Sqrt := Real.sqrt
  Sin := Real.sin
  Cos := Real.cos
  Asin := Real.arcsin

namespace time

/-- The smallest `Duration`, `-1 << 63`. -/
def minDuration : Int := -(2 ^ 63)

/-- The largest `Duration`, `1<<63 - 1`. -/
def maxDuration : Int := 2 ^ 63 - 1

/-- One minute in nanoseconds. -/
def Minute : Int := 60 * 1000000000

/-- The duration `t - u` of `Time.Sub`: when the difference does not fit a `Duration`
the smallest or the largest duration is returned. -/
def Sub (t u : Int) : Int :=
  if t - u < minDuration then minDuration
  else if maxDuration < t - u then maxDuration
  else t - u

/-- The method `Duration.Minutes`: whole minutes plus the remaining nanoseconds as a
fraction of a minute (Go's `/` and `%` truncate toward zero). -/
def Minutes {α : Type} [LinearOrderedField α] (d : Int) : α :=
  let min := d.tdiv Minute
  let nsec := d.tmod Minute
  (min : α) + (nsec : α) / (60 * 1000000000)

end time

/-- Division of two floating-point numbers, idealised: the exact quotient, and `none`
for a zero divisor (where the machine result is an infinity or NaN). -/
def fdiv {α : Type} [LinearOrderedField α] (a b : α) : Option α :=
  if b = 0 then none else some (a / b)

/-! ## Geometry -/

section Geometry

variable {α : Type} [LinearOrderedField α]

/-- Radius of the Earth in meters. -/
def EarthRadius : α := 6371000

/-- Degrees to radians. -/
def toRadians (m : MathPkg α) (deg : α) : α :=
  deg * m.Pi / 180

/-- Great-circle distance in meters between two positions given in degrees. -/
def haversine (m : MathPkg α) (lat1 lon1 lat2 lon2 : α) : α :=
  let lat1 := toRadians m lat1
  let lat2 := toRadians m lat2
  let lon1 := toRadians m lon1
  let lon2 := toRadians m lon2
  let dLat := lat2 - lat1
  let dLon := lon2 - lon1
  let sinDLat := m.Sin (dLat / 2)
  let sinDLon := m.Sin (dLon / 2)
  let h := sinDLat * sinDLat + m.Cos lat1 * m.Cos lat2 * sinDLon * sinDLon
  let c := 2 * m.Asin (m.Sqrt h)
  EarthRadius * c

/-- The value of the variable `h` of `haversine`, the term whose square root goes into
the arcsine. -/
def haversineTerm (m : MathPkg α) (lat1 lon1 lat2 lon2 : α) : α :=
  let lat1 := toRadians m lat1
  let lat2 := toRadians m lat2
  let lon1 := toRadians m lon1
  let lon2 := toRadians m lon2
  let dLat := lat2 - lat1
  let dLon := lon2 - lon1
  let sinDLat := m.Sin (dLat / 2)
  let sinDLon := m.Sin (dLon / 2)
  sinDLat * sinDLat + m.Cos lat1 * m.Cos lat2 * sinDLon * sinDLon

/-- Distance in meters between two positions with altitude: the great-circle distance
and the altitude difference as the legs of a right triangle. -/
def haversineWithAltitude (m : MathPkg α) (lat1 lon1 alt1 lat2 lon2 alt2 : α) : α :=
  let horizontalDist := haversine m lat1 lon1 lat2 lon2
  let verticalDist := alt2 - alt1
  m.Sqrt (horizontalDist * horizontalDist + verticalDist * verticalDist)

end Geometry

/-! ## Data model -/

/-- One raw sample of the track. -/
structure TrackPoint (α : Type) where
  Lat : α
  Lon : α
  Ele : α
  Time : Int
  HR : Int

/-- A track segment: its points in file order. -/
structure Segment (α : Type) where
  TrkPts : List (TrackPoint α)

/-- A decoded GPX document: the segments of its track in file order. -/
structure GPX (α : Type) where
  Segments : List (Segment α)

/-- One row handed to the CSV writer, named after the columns of the header; the
values are those the program formats (`distance_m` and `ele` to one decimal,
`pace_min_per_km` to two).  `pace_min_per_km` is `none` when a division by zero
occurred on the way to it. -/
structure Row (α : Type) where
  distance_m : α
  timestamp : Int
  ele : α
  hr : Int
  pace_min_per_km : Option α

/-- The variables of the resampling loop of `main`, and the rows written so far. -/
structure LoopState (α : Type) where
  totalDist : α
  lastPoint : Option (TrackPoint α)
  lastDist : α
  lastTime : Int
  written : List (Row α)

/-! ## The resampling loop -/

section Loop

variable {α : Type} [LinearOrderedField α]

/-- The loop variables as declared before the loop: zero values, nothing written. -/
def initialState : LoopState α where
  totalDist := 0
  lastPoint := none
  lastDist := 0
  lastTime := 0
  written := []

/-- One iteration of the inner loop of `main`, for the point `pt`, in exact arithmetic. -/
def loopBody (m : MathPkg α) (saveIntervalM : α) (s : LoopState α) (pt : TrackPoint α) :
    LoopState α :=
  match s.lastPoint with
  | none => { s with lastPoint := some pt, lastTime := pt.Time }
  | some lastPoint =>
    let dist :=
      haversineWithAltitude m lastPoint.Lat lastPoint.Lon lastPoint.Ele pt.Lat pt.Lon pt.Ele
    let totalDist := s.totalDist + dist
    if totalDist - s.lastDist ≥ saveIntervalM then
      let timeDiff : α := time.Minutes (time.Sub pt.Time s.lastTime)
      let timeDiff : α := if timeDiff = 0 then 0.0001 else timeDiff
      let pace := fdiv (totalDist - s.lastDist) (timeDiff * 1000)
      let paceMinPerKm := pace.bind (fun pace => fdiv 1 pace)
      { totalDist := totalDist
        lastPoint := some pt
        lastDist := totalDist
        lastTime := pt.Time
        written := s.written ++ [⟨totalDist, pt.Time, pt.Ele, pt.HR, paceMinPerKm⟩] }
    else
      { s with totalDist := totalDist, lastPoint := some pt }

/-- The two nested loops of `main`: every segment in order, every point of it in order. -/
def mainLoop (m : MathPkg α) (saveIntervalM : α) (gpx : GPX α) : LoopState α :=
  gpx.Segments.foldl (fun s seg => seg.TrkPts.foldl (loopBody m saveIntervalM) s) initialState

/-- The rows `main` writes after the header. -/
def resample (m : MathPkg α) (saveIntervalM : α) (gpx : GPX α) : List (Row α) :=
  (mainLoop m saveIntervalM gpx).written

end Loop

/-! ## Vocabulary of the properties -/

section Vocabulary

variable {α : Type} [LinearOrderedField α]

/-- All points of the track, in the order in which the two loops visit them. -/
def allPoints (gpx : GPX α) : List (TrackPoint α) :=
  (gpx.Segments.map Segment.TrkPts).flatten

/-- The distance the loop computes between a reference point and the current point. -/
def pointDist (m : MathPkg α) (p q : TrackPoint α) : α :=
  haversineWithAltitude m p.Lat p.Lon p.Ele q.Lat q.Lon q.Ele

/-- Sum of the distances between every two adjacent points of a list. -/
def pathLength (m : MathPkg α) : List (TrackPoint α) → α
  | [] => 0
  | [_] => 0
  | p :: q :: rest => pointDist m p q + pathLength m (q :: rest)

/-- The loop state after the iterations for the given points, started from the initial
state. -/
def runPoints (m : MathPkg α) (saveIntervalM : α) (pts : List (TrackPoint α)) : LoopState α :=
  pts.foldl (loopBody m saveIntervalM) initialState

/-- The loop state of `main` once the first `i` points of the track are consumed. -/
def stateAfter (m : MathPkg α) (saveIntervalM : α) (gpx : GPX α) (i : Nat) : LoopState α :=
  runPoints m saveIntervalM ((allPoints gpx).take i)

/-- The iteration for point number `i` of the track (from 0, across segments) writes the
row `r`. -/
def EmittedAt (m : MathPkg α) (saveIntervalM : α) (gpx : GPX α) (i : Nat) (r : Row α) : Prop :=
  (stateAfter m saveIntervalM gpx (i + 1)).written
    = (stateAfter m saveIntervalM gpx i).written ++ [r]

/-- Cumulative distance of the last of the given rows, 0 when there is none. -/
def prevDist (rows : List (Row α)) : α :=
  (rows.map Row.distance_m).getLastD 0

/-- Timestamp of the last of the given rows, `t0` when there is none. -/
def prevTime (t0 : Int) (rows : List (Row α)) : Int :=
  (rows.map Row.timestamp).getLastD t0

/-- The elapsed minutes the loop divides by: the minutes from `lastTime` to `t`, with
0.0001 in place of zero. -/
def elapsedMinutes (t lastTime : Int) : α :=
  if (time.Minutes (time.Sub t lastTime) : α) = 0 then 0.0001
  else time.Minutes (time.Sub t lastTime)

/-- The pace the loop derives from a distance gap and the elapsed minutes. -/
def paceOf (gap timeDiff : α) : Option α :=
  (fdiv gap (timeDiff * 1000)).bind (fun pace => fdiv 1 pace)

end Vocabulary

/-! ## Sample tracks -/

/-- A climb on the spot: three points one minute apart, each 300 m above the one before. -/
def climb : GPX ℝ :=
  ⟨[⟨[⟨0, 0, 0, 0, 90⟩, ⟨0, 0, 300, 60000000000, 95⟩, ⟨0, 0, 600, 120000000000, 99⟩]⟩]⟩

/-- Three points on the equator, 0.002° of longitude and one minute apart. -/
def equatorTrack (hr0 hr1 hr2 : Int) : GPX ℝ :=
  ⟨[⟨[⟨0, 0, 0, 0, hr0⟩, ⟨0, 0.002, 0, 60000000000, hr1⟩,
      ⟨0, 0.004, 0, 120000000000, hr2⟩]⟩]⟩

/-- A track of one point between two empty segments. -/
def lonePoint : GPX ℝ :=
  ⟨[⟨[]⟩, ⟨[⟨48, 11, 500, 0, 0⟩]⟩, ⟨[]⟩]⟩

/-- A `float64`: not a number, an infinity with its sign, or the finite number
`(-1)^neg * m * 2^e`.  The results of the operations have `m < 2^53`, `-1074 ≤ e ≤ 971`
and `2^52 ≤ m` unless `e = -1074`. -/
inductive F64 where
  | nan : F64
  | inf (neg : Bool) : F64
  | fin (neg : Bool) (m : Nat) (e : Int) : F64
deriving DecidableEq

namespace F64

/-- Number of binary digits of `n`, by halving at most `fuel` times. -/
def bitLenAux : Nat → Nat → Nat
  | 0, _ => 0
  | fuel + 1, n => if n = 0 then 0 else bitLenAux fuel (n / 2) + 1

/-- Number of binary digits of `n`. -/
def bitLen (n : Nat) : Nat := bitLenAux n n

/-- The `float64` nearest to `m * 2^e`, ties to the even mantissa, with the sign `neg`;
an infinity when that is beyond the largest finite number. -/
def roundNat (neg : Bool) (m : Nat) (e : Int) : F64 :=
  if m = 0 then fin neg 0 (-1074)
  else
    let et : Int := max (e + (bitLen m : Int) - 53) (-1074)
    if et ≤ e then
      if 971 < et then inf neg else fin neg (m * 2 ^ (e - et).toNat) et
    else
      let s := (et - e).toNat
      let q := m / 2 ^ s
      let r := m % 2 ^ s
      let half := 2 ^ (s - 1)
      let q1 := if half < r ∨ (r = half ∧ q % 2 = 1) then q + 1 else q
      if q1 = 2 ^ 53 then
        if 971 < et + 1 then inf neg else fin neg (2 ^ 52) (et + 1)
      else
        if 971 < et then inf neg else fin neg q1 et

/-- The `float64` nearest to `num / den * 2^e`, for `den ≠ 0`: the quotient is taken to
at least 56 binary digits and its last digit set when the division leaves a rest. -/
def roundRat (neg : Bool) (num den : Nat) (e : Int) : F64 :=
  if num = 0 then fin neg 0 (-1074)
  else
    let k := bitLen den + 56
    let q := num * 2 ^ k / den
    let sticky := if num * 2 ^ k % den = 0 then 0 else 1
    roundNat neg (q ||| sticky) (e - k)

/-- The number zero, with the sign plus. -/
def zero : F64 := fin false 0 (-1074)

/-- Unary minus. -/
def neg : F64 → F64
  | nan => nan
  | inf s => inf (!s)
  | fin s m e => fin (!s) m e

/-- The function `math.Abs`. -/
def abs : F64 → F64
  | nan => nan
  | inf _ => inf false
  | fin _ m e => fin false m e

/-- The signed integer `v` with `(-1)^s * m * 2^e1 = v * 2^e`, for `e ≤ e1`. -/
def scaled (s : Bool) (m : Nat) (e1 e : Int) : Int :=
  if s then -((m * 2 ^ (e1 - e).toNat : Nat) : Int) else ((m * 2 ^ (e1 - e).toNat : Nat) : Int)

/-- The operation `x + y`. -/
def add : F64 → F64 → F64
  | nan, _ => nan
  | _, nan => nan
  | inf s, inf t => if s = t then inf s else nan
  | inf s, fin _ _ _ => inf s
  | fin _ _ _, inf t => inf t
  | fin s1 m1 e1, fin s2 m2 e2 =>
    if scaled s1 m1 e1 (min e1 e2) + scaled s2 m2 e2 (min e1 e2) = 0 then
      fin (s1 && s2) 0 (-1074)
    else
      roundNat (decide (scaled s1 m1 e1 (min e1 e2) + scaled s2 m2 e2 (min e1 e2) < 0))
        (scaled s1 m1 e1 (min e1 e2) + scaled s2 m2 e2 (min e1 e2)).natAbs (min e1 e2)

/-- The operation `x - y`. -/
def sub (x y : F64) : F64 := add x (neg y)

/-- The operation `x * y`. -/
def mul : F64 → F64 → F64
  | nan, _ => nan
  | _, nan => nan
  | inf s, inf t => inf (xor s t)
  | inf s, fin t m _ => if m = 0 then nan else inf (xor s t)
  | fin s m _, inf t => if m = 0 then nan else inf (xor s t)
  | fin s1 m1 e1, fin s2 m2 e2 => roundNat (xor s1 s2) (m1 * m2) (e1 + e2)

/-- The operation `x / y`. -/
def div : F64 → F64 → F64
  | nan, _ => nan
  | _, nan => nan
  | inf _, inf _ => nan
  | inf s, fin t _ _ => inf (xor s t)
  | fin s _ _, inf t => fin (xor s t) 0 (-1074)
  | fin s1 m1 e1, fin s2 m2 e2 =>
    if m2 = 0 then (if m1 = 0 then nan else inf (xor s1 s2))
    else roundRat (xor s1 s2) m1 m2 (e1 - e2)

/-- The integer square root, one binary digit after the other from digit `i - 1` down:
the largest `r` with `r * r ≤ n` when started with enough digits and `r = 0`. -/
def isqrtAux (n : Nat) : Nat → Nat → Nat
  | 0, r => r
  | i + 1, r =>
    if (r + 2 ^ i) * (r + 2 ^ i) ≤ n then isqrtAux n i (r + 2 ^ i) else isqrtAux n i r

/-- The integer square root of `n`. -/
def isqrt (n : Nat) : Nat := isqrtAux n ((bitLen n + 1) / 2) 0

/-- The `float64` nearest to the square root of `n * 2^e`, for `n ≥ 2^128` and an even
`e`: the integer square root of `n`, its last digit set when `n` is no square. -/
def sqrtScaled (n : Nat) (e : Int) : F64 :=
  roundNat false (isqrt n ||| (if isqrt n * isqrt n = n then 0 else 1)) (e / 2)

/-- The function `math.Sqrt`: the `float64` nearest to the square root. -/
def sqrt : F64 → F64
  | nan => nan
  | inf s => if s then nan else inf false
  | fin s m e =>
    if m = 0 then fin s 0 (-1074)
    else if s then nan
    else if e % 2 = 0 then sqrtScaled (m * 2 ^ 128) (e - 128)
    else sqrtScaled (m * 2 ^ 129) (e - 129)

/-- The comparison `x >= y`. -/
def ge : F64 → F64 → Bool
  | nan, _ => false
  | _, nan => false
  | inf s, inf t => !s || t
  | inf s, fin _ _ _ => !s
  | fin _ _ _, inf t => t
  | fin s1 m1 e1, fin s2 m2 e2 =>
    decide (scaled s2 m2 e2 (min e1 e2) ≤ scaled s1 m1 e1 (min e1 e2))

/-- The comparison `x <= y`. -/
def le (x y : F64) : Bool := ge y x

/-- The comparison `x > y`. -/
def gt (x y : F64) : Bool := ge x y && !ge y x

/-- The comparison `x < y`. -/
def lt (x y : F64) : Bool := gt y x

/-- The comparison `x == y`. -/
def eq (x y : F64) : Bool := ge x y && ge y x

/-- The conversion `float64(n)` of an integer, also of an integer constant. -/
def ofInt (n : Int) : F64 := roundNat (decide (n < 0)) n.natAbs 0

/-- The decimal constant `d * 10^p`. -/
def ofDec (d : Nat) (p : Int) : F64 :=
  if 0 ≤ p then roundNat false (d * 10 ^ p.toNat) 0 else roundRat false d (10 ^ (-p).toNat) 0

/-- The conversion `uint64(x)` of a number that is not negative: its integer part. -/
def toUint64 : F64 → Nat
  | fin false m e => (if 0 ≤ e then m * 2 ^ e.toNat else m / 2 ^ (-e).toNat) % 2 ^ 64
  | _ => 0

/-- The function `math.Float64frombits`. -/
def ofBits (b : Nat) : F64 :=
  if b / 2 ^ 52 % 2 ^ 11 = 2047 then
    (if b % 2 ^ 52 = 0 then inf (decide (b / 2 ^ 63 % 2 = 1)) else nan)
  else if b / 2 ^ 52 % 2 ^ 11 = 0 then fin (decide (b / 2 ^ 63 % 2 = 1)) (b % 2 ^ 52) (-1074)
  else fin (decide (b / 2 ^ 63 % 2 = 1)) (b % 2 ^ 52 + 2 ^ 52)
    (((b / 2 ^ 52 % 2 ^ 11 : Nat) : Int) - 1075)

/-- The function `math.Float64bits`. -/
def toBits : F64 → Nat
  | nan => 0x7ff8000000000001
  | inf s => (if s then 2 ^ 63 else 0) + 2047 * 2 ^ 52
  | fin s m e =>
    (if s then 2 ^ 63 else 0) +
      (if m < 2 ^ 52 then m else (m - 2 ^ 52) + (e + 1075).toNat * 2 ^ 52)

/-- The function `math.IsNaN`. -/
def isNaN : F64 → Bool
  | nan => true
  | _ => false

/-- The function `math.IsInf` with the sign 0. -/
def isInf : F64 → Bool
  | inf _ => true
  | _ => false

/-- The number is finite: neither NaN nor an infinity. -/
def isFinite : F64 → Bool
  | fin _ _ _ => true
  | _ => false

/-- The exact value of a finite `float64` as a rational number, 0 for the others. -/
def toRat : F64 → ℚ
  | fin s m e => (if s then -1 else 1) * (m : ℚ) * (2 : ℚ) ^ e
  | _ => 0

end F64

/-! ### The functions of the package `math` -/

namespace GoMath

open F64

/-- The decimal digits of the constant `math.Pi`, which is this number over `10^62`. -/
def piDigits : Nat := 314159265358979323846264338327950288419716939937510582097494459

/-- The constant `math.Pi` as a `float64`. -/
def Pi : F64 := roundRat false piDigits (10 ^ 62) 0

/-- The constant expression `Pi / 2`. -/
def piOver2 : F64 := roundRat false piDigits (2 * 10 ^ 62) 0

/-- The constant expression `Pi / 4`. -/
def piOver4 : F64 := roundRat false piDigits (4 * 10 ^ 62) 0

/-- The constant expression `4 / Pi`. -/
def fourOverPi : F64 := roundRat false (4 * 10 ^ 62) piDigits 0

/-- The constant `PI4A`, the first part of `π/4`. -/
def PI4A : F64 := ofDec 785398125648498535156 (-21)

/-- The constant `PI4B`, the second part of `π/4`. -/
def PI4B : F64 := ofDec 377489470793079817668 (-28)

/-- The constant `PI4C`, the third part of `π/4`. -/
def PI4C : F64 := ofDec 269515142907905952645 (-35)

/-- Horner evaluation `(..(acc * z + c1) * z + ..) * z + cn`. -/
def horner (acc : F64) (cs : List F64) (z : F64) : F64 :=
  cs.foldl (fun a c => add (mul a z) c) acc

/-- The coefficients `_sin[1]` to `_sin[5]`. -/
def sinCoef : List F64 :=
  [neg (ofDec 250507477628578072866 (-28)), ofDec 275573136213857245213 (-26),
   neg (ofDec 198412698295895385996 (-24)), ofDec 833333333332211858878 (-23),
   neg (ofDec 166666666666666307295 (-21))]

/-- The coefficients `_cos[1]` to `_cos[5]`. -/
def cosCoef : List F64 :=
  [ofDec 208757008419747316778 (-29), neg (ofDec 275573141792967388112 (-27)),
   ofDec 248015872888517045348 (-25), neg (ofDec 138888888888730564116 (-23)),
   ofDec 416666666666665929218 (-22)]

/-- The sine on the reduced argument: `z + z*zz*(polynomial in zz)`. -/
def sinPoly (z zz : F64) : F64 :=
  add z (mul (mul z zz) (horner (ofDec 158962301576546568060 (-30)) sinCoef zz))

/-- The cosine on the reduced argument: `1.0 - 0.5*zz + zz*zz*(polynomial in zz)`. -/
def cosPoly (zz : F64) : F64 :=
  add (sub (ofInt 1) (mul (ofDec 5 (-1)) zz))
    (mul (mul zz zz) (horner (neg (ofDec 113585365213876817300 (-31))) cosCoef zz))

/-- The binary digits of `4/π`: the twenty 64-bit words of the table `mPi4` in a row. -/
def mPi4Digits : Nat := 1436762042799249464599471190770549237238954220229867879941249734202507677396818572841661258712197472977584340426583215490169760957443689211057306349163373844600972405389011770843781920761928525465569652634283684085946426272060692158419916259561059652236058246048249386799806649121873585408072943491027126850699742857762370245662594349139533413873096177094268384892759

/-- The word number `i` of the table `mPi4`. -/
def mPi4 (i : Nat) : Nat := mPi4Digits / 2 ^ (64 * (19 - i)) % 2 ^ 64

/-- The function `trigReduce`, the reduction of a large `x ≥ 0` by multiples of `π/4`:
the octant and the rest. -/
def trigReduce (x : F64) : Nat × F64 :=
  if lt x piOver4 then (0, x)
  else
    let exp : Int := ((toBits x / 2 ^ 52 % 2 ^ 11 : Nat) : Int) - 1023 - 52
    let ix : Nat := toBits x % 2 ^ 52 + 2 ^ 52
    let digit : Nat := (exp + 61).toNat / 64
    let bitshift : Nat := (exp + 61).toNat % 64
    let z0 := (mPi4 digit * 2 ^ bitshift % 2 ^ 64) ||| (mPi4 (digit + 1) / 2 ^ (64 - bitshift))
    let z1 := (mPi4 (digit + 1) * 2 ^ bitshift % 2 ^ 64) |||
      (mPi4 (digit + 2) / 2 ^ (64 - bitshift))
    let z2 := (mPi4 (digit + 2) * 2 ^ bitshift % 2 ^ 64) |||
      (mPi4 (digit + 3) / 2 ^ (64 - bitshift))
    let z2hi := z2 * ix / 2 ^ 64
    let z1hi := z1 * ix / 2 ^ 64
    let z1lo := z1 * ix % 2 ^ 64
    let z0lo := z0 * ix % 2 ^ 64
    let lo := (z1lo + z2hi) % 2 ^ 64
    let c := (z1lo + z2hi) / 2 ^ 64
    let hi := (z0lo + z1hi + c) % 2 ^ 64
    let j := hi / 2 ^ 61
    let hi3 := (hi * 2 ^ 3 % 2 ^ 64) ||| (lo / 2 ^ 61)
    let lz := 64 - bitLen hi3
    let e : Nat := 1023 - (lz + 1)
    let frac := ((hi3 * 2 ^ (lz + 1) % 2 ^ 64) ||| (lo / 2 ^ (64 - (lz + 1)))) / 2 ^ (64 - 52)
    let z := ofBits (frac ||| (e * 2 ^ 52))
    if j % 2 = 1 then ((j + 1) % 8, mul (sub z (ofInt 1)) piOver4)
    else (j, mul z piOver4)

/-- The octant of `x ≥ 0` and what is left of `x` once the multiples of `π/4` are taken
off, as `math.Sin` and `math.Cos` compute them. -/
def reduce (x : F64) : Nat × F64 :=
  if ge x (ofInt (2 ^ 29)) then trigReduce x
  else
    let j := toUint64 (mul x fourOverPi)
    let j1 := if j % 2 = 1 then (j + 1) % 2 ^ 64 else j
    let y1 := if j % 2 = 1 then add (ofInt j) (ofInt 1) else ofInt j
    (j1 % 8, sub (sub (sub x (mul y1 PI4A)) (mul y1 PI4B)) (mul y1 PI4C))

/-- The function `math.Cos`. -/
def Cos (x : F64) : F64 :=
  if isNaN x || isInf x then nan
  else
    let jz := reduce (abs x)
    let sign1 := decide (3 < jz.1)
    let j := if 3 < jz.1 then jz.1 - 4 else jz.1
    let sign := if 1 < j then !sign1 else sign1
    let zz := mul jz.2 jz.2
    let y := if j = 1 ∨ j = 2 then sinPoly jz.2 zz else cosPoly zz
    if sign then neg y else y

/-- The function `math.Sin`. -/
def Sin (x : F64) : F64 :=
  if F64.eq x (ofInt 0) || isNaN x then x
  else if isInf x then nan
  else
    let sign0 := lt x (ofInt 0)
    let jz := reduce (abs x)
    let sign := if 3 < jz.1 then !sign0 else sign0
    let j := if 3 < jz.1 then jz.1 - 4 else jz.1
    let zz := mul jz.2 jz.2
    let y := if j = 1 ∨ j = 2 then cosPoly zz else sinPoly jz.2 zz
    if sign then neg y else y

/-- The function `xatan`, the arctangent on the interval from 0 to 0.66. -/
def xatan (x : F64) : F64 :=
  let z := mul x x
  let num := horner (neg (ofDec 8750608600031904122785 (-22)))
    [neg (ofDec 1615753718733365076637 (-20)), neg (ofDec 7500855792314704667340 (-20)),
     neg (ofDec 1228866684490136173410 (-19)), neg (ofDec 6485021904942025371773 (-20))] z
  let den := horner (add z (ofDec 2485846490142306297962 (-20)))
    [ofDec 1650270098316988542046 (-19), ofDec 4328810604912902668951 (-19),
     ofDec 4853903996359136964868 (-19), ofDec 1945506571482613964425 (-19)] z
  add (mul x (div (mul z num) den)) x

/-- The constant `Morebits`. -/
def Morebits : F64 := ofDec 6123233995736765886130 (-38)

/-- The constant expression `0.5 * Morebits`. -/
def halfMorebits : F64 := ofDec 3061616997868382943065 (-38)

/-- The constant `Tan3pio8`. -/
def Tan3pio8 : F64 := ofDec 241421356237309504880 (-20)

/-- The function `satan`, the arctangent of a number that is not negative. -/
def satan (x : F64) : F64 :=
  if le x (ofDec 66 (-2)) then xatan x
  else if gt x Tan3pio8 then add (sub piOver2 (xatan (div (ofInt 1) x))) Morebits
  else add (add piOver4 (xatan (div (sub x (ofInt 1)) (add x (ofInt 1))))) halfMorebits

/-- The function `math.Asin`. -/
def Asin (x : F64) : F64 :=
  if F64.eq x (ofInt 0) then x
  else
    let sign := lt x (ofInt 0)
    let x1 := if sign then neg x else x
    if gt x1 (ofInt 1) then nan
    else
      let temp := sqrt (sub (ofInt 1) (mul x1 x1))
      let t := if gt x1 (ofDec 7 (-1)) then sub piOver2 (satan (div temp x1))
        else satan (div x1 temp)
      if sign then neg t else t

end GoMath

/-! ### The program over its arithmetic -/

/-- The arithmetic the program computes with: the conversions, the four operations, the
two comparisons it uses, and the constant and functions of the package `math`. -/
structure Arith (F : Type) where
  ofInt : Int → F
  ofDec : Nat → Int → F
  add : F → F → F
  sub : F → F → F
  mul : F → F → F
  div : F → F → F
  ge : F → F → Bool
  eq : F → F → Bool
  Pi : F
  Sqrt : F → F
  Sin : F → F
  Cos : F → F
  Asin : F → F

/-- The arithmetic of `float64` with the functions of Go's package `math`. -/
def float64 : Arith F64 where
  ofInt := F64.ofInt
  ofDec := F64.ofDec
  add := F64.add
  sub := F64.sub
  mul := F64.mul
  div := F64.div
  ge := F64.ge
  eq := F64.eq
  Pi := GoMath.Pi
  Sqrt := F64.sqrt
  Sin := GoMath.Sin
  Cos := GoMath.Cos
  Asin := GoMath.Asin

namespace Machine

section Program

variable {F : Type}

/-- The method `Duration.Minutes`. -/
def Minutes (A : Arith F) (d : Int) : F :=
  let min := d.tdiv time.Minute
  let nsec := d.tmod time.Minute
  A.add (A.ofInt min) (A.div (A.ofInt nsec) (A.ofInt 60000000000))

/-- Degrees to radians. -/
def toRadians (A : Arith F) (deg : F) : F :=
  A.div (A.mul deg A.Pi) (A.ofInt 180)

/-- The value of the variable `h` of `haversine`. -/
def haversineTerm (A : Arith F) (lat1 lon1 lat2 lon2 : F) : F :=
  let lat1 := toRadians A lat1
  let lat2 := toRadians A lat2
  let lon1 := toRadians A lon1
  let lon2 := toRadians A lon2
  let dLat := A.sub lat2 lat1
  let dLon := A.sub lon2 lon1
  let sinDLat := A.Sin (A.div dLat (A.ofInt 2))
  let sinDLon := A.Sin (A.div dLon (A.ofInt 2))
  A.add (A.mul sinDLat sinDLat) (A.mul (A.mul (A.mul (A.Cos lat1) (A.Cos lat2)) sinDLon) sinDLon)

/-- Great-circle distance in meters between two positions given in degrees. -/
def haversine (A : Arith F) (lat1 lon1 lat2 lon2 : F) : F :=
  let lat1 := toRadians A lat1
  let lat2 := toRadians A lat2
  let lon1 := toRadians A lon1
  let lon2 := toRadians A lon2
  let dLat := A.sub lat2 lat1
  let dLon := A.sub lon2 lon1
  let sinDLat := A.Sin (A.div dLat (A.ofInt 2))
  let sinDLon := A.Sin (A.div dLon (A.ofInt 2))
  let h := A.add (A.mul sinDLat sinDLat)
    (A.mul (A.mul (A.mul (A.Cos lat1) (A.Cos lat2)) sinDLon) sinDLon)
  let c := A.mul (A.ofInt 2) (A.Asin (A.Sqrt h))
  A.mul (A.ofInt 6371000) c

/-- Distance in meters between two positions with altitude. -/
def haversineWithAltitude (A : Arith F) (lat1 lon1 alt1 lat2 lon2 alt2 : F) : F :=
  let horizontalDist := haversine A lat1 lon1 lat2 lon2
  let verticalDist := A.sub alt2 alt1
  A.Sqrt (A.add (A.mul horizontalDist horizontalDist) (A.mul verticalDist verticalDist))

/-- One row handed to the CSV writer: the five values before they are formatted. -/
structure Row (F : Type) where
  distance_m : F
  timestamp : Int
  ele : F
  hr : Int
  pace_min_per_km : F
deriving DecidableEq

/-- The variables of the resampling loop of `main`, and the rows written so far. -/
structure LoopState (F : Type) where
  totalDist : F
  lastPoint : Option (TrackPoint F)
  lastDist : F
  lastTime : Int
  written : List (Row F)

/-- The loop variables as declared before the loop: zero values, nothing written. -/
def initialState (A : Arith F) : LoopState F where
  totalDist := A.ofInt 0
  lastPoint := none
  lastDist := A.ofInt 0
  lastTime := 0
  written := []

/-- One iteration of the inner loop of `main`, for the point `pt`. -/
def loopBody (A : Arith F) (saveIntervalM : F) (s : LoopState F) (pt : TrackPoint F) :
    LoopState F :=
  match s.lastPoint with
  | none => { s with lastPoint := some pt, lastTime := pt.Time }
  | some lastPoint =>
    let dist :=
      haversineWithAltitude A lastPoint.Lat lastPoint.Lon lastPoint.Ele pt.Lat pt.Lon pt.Ele
    let totalDist := A.add s.totalDist dist
    if A.ge (A.sub totalDist s.lastDist) saveIntervalM = true then
      let timeDiff := Minutes A (time.Sub pt.Time s.lastTime)
      let timeDiff := if A.eq timeDiff (A.ofInt 0) = true then A.ofDec 1 (-4) else timeDiff
      let pace := A.div (A.sub totalDist s.lastDist) (A.mul timeDiff (A.ofInt 1000))
      let paceMinPerKm := A.div (A.ofInt 1) pace
      { totalDist := totalDist
        lastPoint := some pt
        lastDist := totalDist
        lastTime := pt.Time
        written := s.written ++ [⟨totalDist, pt.Time, pt.Ele, pt.HR, paceMinPerKm⟩] }
    else
      { s with totalDist := totalDist, lastPoint := some pt }

/-- The two nested loops of `main`: every segment in order, every point of it in order. -/
def mainLoop (A : Arith F) (saveIntervalM : F) (gpx : GPX F) : LoopState F :=
  gpx.Segments.foldl (fun s seg => seg.TrkPts.foldl (loopBody A saveIntervalM) s)
    (initialState A)

/-- The rows `main` writes after the header. -/
def resample (A : Arith F) (saveIntervalM : F) (gpx : GPX F) : List (Row F) :=
  (mainLoop A saveIntervalM gpx).written

/-- All points of the track, in the order in which the two loops visit them. -/
def allPoints (gpx : GPX F) : List (TrackPoint F) :=
  (gpx.Segments.map Segment.TrkPts).flatten

/-- The distance the loop computes between a reference point and the current point. -/
def pointDist (A : Arith F) (p q : TrackPoint F) : F :=
  haversineWithAltitude A p.Lat p.Lon p.Ele q.Lat q.Lon q.Ele

/-- The distances between every two adjacent points of a list, in order. -/
def stepDists (A : Arith F) : List (TrackPoint F) → List F
  | [] => []
  | [_] => []
  | p :: q :: rest => pointDist A p q :: stepDists A (q :: rest)

/-- The running sum of the step distances as the loop forms it: from 0, one addition of
the arithmetic per step, in the order of the track. -/
def runningSum (A : Arith F) (pts : List (TrackPoint F)) : F :=
  (stepDists A pts).foldl A.add (A.ofInt 0)

/-- The loop state after the iterations for the given points, started from the initial
state. -/
def runPoints (A : Arith F) (saveIntervalM : F) (pts : List (TrackPoint F)) : LoopState F :=
  pts.foldl (loopBody A saveIntervalM) (initialState A)

/-- The loop state of `main` once the first `i` points of the track are consumed. -/
def stateAfter (A : Arith F) (saveIntervalM : F) (gpx : GPX F) (i : Nat) : LoopState F :=
  runPoints A saveIntervalM ((allPoints gpx).take i)

/-- The iteration for point number `i` of the track (from 0, across segments) writes the
row `r`. -/
def EmittedAt (A : Arith F) (saveIntervalM : F) (gpx : GPX F) (i : Nat) (r : Row F) : Prop :=
  (stateAfter A saveIntervalM gpx (i + 1)).written
    = (stateAfter A saveIntervalM gpx i).written ++ [r]

/-- Cumulative distance of the last of the given rows, 0 when there is none. -/
def prevDist (A : Arith F) (rows : List (Row F)) : F :=
  (rows.map Row.distance_m).getLastD (A.ofInt 0)

/-- The elapsed minutes the loop divides by: the minutes from `lastTime` to `t`, with
0.0001 in place of a value that compares equal to zero. -/
def elapsedMinutes (A : Arith F) (t lastTime : Int) : F :=
  if A.eq (Minutes A (time.Sub t lastTime)) (A.ofInt 0) = true then A.ofDec 1 (-4)
  else Minutes A (time.Sub t lastTime)

/-- The pace the loop derives from a distance gap and the elapsed minutes. -/
def paceOf (A : Arith F) (gap timeDiff : F) : F :=
  A.div (A.ofInt 1) (A.div gap (A.mul timeDiff (A.ofInt 1000)))

/-- Timestamp of the last of the given rows, `t0` when there is none. -/
def prevTime (t0 : Int) (rows : List (Row F)) : Int :=
  (rows.map Row.timestamp).getLastD t0

end Program

end Machine

/-! ### Sample tracks in `float64` -/

/-- Up and down on the spot, in two segments: five points one minute apart, each 150 m
above or below the one before. -/
def zigzag : GPX F64 :=
  ⟨[⟨[⟨F64.ofInt 0, F64.ofInt 0, F64.ofInt 0, 0, 90⟩,
      ⟨F64.ofInt 0, F64.ofInt 0, F64.ofInt 150, 60000000000, 91⟩,
      ⟨F64.ofInt 0, F64.ofInt 0, F64.ofInt 0, 120000000000, 92⟩]⟩,
    ⟨[⟨F64.ofInt 0, F64.ofInt 0, F64.ofInt 150, 180000000000, 93⟩,
      ⟨F64.ofInt 0, F64.ofInt 0, F64.ofInt 0, 240000000000, 94⟩]⟩]⟩

/-- Three points on the spot at the elevations 0, `2 - 2^-52` and `1 - 2^-52`: a step of
`2 - 2^-52` up and a step of 1 down. -/
def roundingTrack : GPX F64 :=
  ⟨[⟨[⟨F64.ofInt 0, F64.ofInt 0, F64.ofInt 0, 0, 90⟩,
      ⟨F64.ofInt 0, F64.ofInt 0, F64.fin false (2 ^ 53 - 1) (-52), 60000000000, 91⟩,
      ⟨F64.ofInt 0, F64.ofInt 0, F64.fin false (2 ^ 53 - 2) (-53), 120000000000, 92⟩]⟩]⟩

theorem prevTime_concat {β : Type} (t0 : Int) (rows : List (Row β)) (r : Row β) :
    prevTime t0 (rows ++ [r]) = r.timestamp := by
  simp [prevTime]

section Basic

variable {α : Type} [LinearOrderedField α]

theorem runPoints_concat (m : MathPkg α) (thr : α) (pts : List (TrackPoint α))
    (p : TrackPoint α) :
    runPoints m thr (pts ++ [p]) = loopBody m thr (runPoints m thr pts) p := by
  simp [runPoints, List.foldl_append]

theorem mainLoop_eq_runPoints (m : MathPkg α) (thr : α) (gpx : GPX α) :
    mainLoop m thr gpx = runPoints m thr (allPoints gpx) := by
  unfold mainLoop runPoints allPoints
  rw [List.foldl_flatten, List.foldl_map]

theorem loopBody_none (m : MathPkg α) (thr : α) (s : LoopState α) (p : TrackPoint α)
    (h : s.lastPoint = none) :
    loopBody m thr s p = { s with lastPoint := some p, lastTime := p.Time } := by
  unfold loopBody
  rw [h]

theorem loopBody_emit (m : MathPkg α) (thr : α) (s : LoopState α) (q p : TrackPoint α)
    (h : s.lastPoint = some q) (hc : thr ≤ s.totalDist + pointDist m q p - s.lastDist) :
    loopBody m thr s p =
      { totalDist := s.totalDist + pointDist m q p
        lastPoint := some p
        lastDist := s.totalDist + pointDist m q p
        lastTime := p.Time
        written := s.written ++
          [⟨s.totalDist + pointDist m q p, p.Time, p.Ele, p.HR,
            paceOf (s.totalDist + pointDist m q p - s.lastDist)
              (elapsedMinutes p.Time s.lastTime)⟩] } := by
  unfold loopBody
  rw [h]
  simp only [pointDist, ge_iff_le] at hc ⊢
  rw [if_pos hc]
  rfl

theorem loopBody_skip (m : MathPkg α) (thr : α) (s : LoopState α) (q p : TrackPoint α)
    (h : s.lastPoint = some q) (hc : ¬ thr ≤ s.totalDist + pointDist m q p - s.lastDist) :
    loopBody m thr s p =
      { s with totalDist := s.totalDist + pointDist m q p, lastPoint := some p } := by
  unfold loopBody
  rw [h]
  simp only [pointDist, ge_iff_le] at hc ⊢
  rw [if_neg hc]

theorem pathLength_concat (m : MathPkg α) :
    ∀ (l : List (TrackPoint α)) (q a : TrackPoint α), l.getLast? = some q →
      pathLength m (l ++ [a]) = pathLength m l + pointDist m q a
  | [], _, _, h => by simp at h
  | [p], q, a, h => by
      simp at h
      subst h
      simp [pathLength]
  | p :: p2 :: rest, q, a, h => by
      have h2 : (p2 :: rest).getLast? = some q := by
        rw [List.getLast?_cons_cons] at h
        exact h
      have ih := pathLength_concat m (p2 :: rest) q a h2
      have e : p :: p2 :: rest ++ [a] = p :: p2 :: (rest ++ [a]) := rfl
      rw [e]
      simp only [pathLength]
      rw [← List.cons_append, ih, add_assoc]

theorem prevDist_concat (rows : List (Row α)) (r : Row α) :
    prevDist (rows ++ [r]) = r.distance_m := by
  simp [prevDist]

/-- What the loop variables hold after a non-empty run of points: the reference point is
the last point, `totalDist` the length of the path so far, `lastDist` and `lastTime` the
distance and timestamp of the last row written (0 and the first timestamp when none). -/
theorem runPoints_inv (m : MathPkg α) (thr : α) (p0 : TrackPoint α)
    (rest : List (TrackPoint α)) :
    (runPoints m thr (p0 :: rest)).lastPoint = (p0 :: rest).getLast? ∧
    (runPoints m thr (p0 :: rest)).totalDist = pathLength m (p0 :: rest) ∧
    (runPoints m thr (p0 :: rest)).lastDist
      = prevDist (runPoints m thr (p0 :: rest)).written ∧
    (runPoints m thr (p0 :: rest)).lastTime
      = prevTime p0.Time (runPoints m thr (p0 :: rest)).written := by
  induction rest using List.reverseRecOn with
  | nil =>
      simp [runPoints, loopBody, initialState, pathLength, prevDist, prevTime]
  | append_singleton l a ih =>
      obtain ⟨h1, h2, h3, h4⟩ := ih
      obtain ⟨q, hq⟩ : ∃ q, (p0 :: l).getLast? = some q :=
        ⟨(p0 :: l).getLast (List.cons_ne_nil _ _), List.getLast?_eq_getLast _ _⟩
      rw [hq] at h1
      have hstep : runPoints m thr (p0 :: (l ++ [a]))
          = loopBody m thr (runPoints m thr (p0 :: l)) a := by
        rw [← List.cons_append, runPoints_concat]
      have hlen : pathLength m (p0 :: (l ++ [a]))
          = pathLength m (p0 :: l) + pointDist m q a := by
        rw [← List.cons_append, pathLength_concat m _ q a hq]
      have hlast : (p0 :: (l ++ [a])).getLast? = some a := by
        rw [← List.cons_append, List.getLast?_append]
        simp
      rw [hstep, hlen, hlast]
      by_cases hc : thr ≤ (runPoints m thr (p0 :: l)).totalDist + pointDist m q a
          - (runPoints m thr (p0 :: l)).lastDist
      · rw [loopBody_emit m thr _ q a h1 hc]
        simp [h2, prevDist_concat, prevTime_concat]
      · rw [loopBody_skip m thr _ q a h1 hc]
        simp [h2, h3, h4]

/-- An iteration leaves the rows written so far in place and adds at most one. -/
theorem loopBody_written (m : MathPkg α) (thr : α) (s : LoopState α) (p : TrackPoint α) :
    (loopBody m thr s p).written = s.written ∨
      ∃ r, (loopBody m thr s p).written = s.written ++ [r] := by
  cases h : s.lastPoint with
  | none => left; rw [loopBody_none m thr s p h]
  | some q =>
      by_cases hc : thr ≤ s.totalDist + pointDist m q p - s.lastDist
      · right
        rw [loopBody_emit m thr s q p h hc]
        exact ⟨_, rfl⟩
      · left
        rw [loopBody_skip m thr s q p h hc]

/-- Nothing is written by the iteration for the first point. -/
theorem runPoints_single (m : MathPkg α) (thr : α) (p : TrackPoint α) :
    (runPoints m thr [p]).written = [] := by
  simp [runPoints, loopBody, initialState]

/-- The row an iteration appends, read off the loop variables before it. -/
theorem emit_facts (m : MathPkg α) (thr : α) (p0 : TrackPoint α) (l : List (TrackPoint α))
    (q p : TrackPoint α) (r : Row α) (hq : (p0 :: l).getLast? = some q)
    (h : (runPoints m thr (p0 :: l ++ [p])).written
      = (runPoints m thr (p0 :: l)).written ++ [r]) :
    thr ≤ pathLength m (p0 :: l) + pointDist m q p
        - prevDist (runPoints m thr (p0 :: l)).written ∧
    r = ⟨pathLength m (p0 :: l) + pointDist m q p, p.Time, p.Ele, p.HR,
          paceOf (pathLength m (p0 :: l) + pointDist m q p
              - prevDist (runPoints m thr (p0 :: l)).written)
            (elapsedMinutes p.Time (prevTime p0.Time (runPoints m thr (p0 :: l)).written))⟩ := by
  obtain ⟨h1, h2, h3, h4⟩ := runPoints_inv m thr p0 l
  rw [hq] at h1
  rw [runPoints_concat] at h
  by_cases hc : thr ≤ (runPoints m thr (p0 :: l)).totalDist + pointDist m q p
      - (runPoints m thr (p0 :: l)).lastDist
  · rw [loopBody_emit m thr _ q p h1 hc] at h
    have h5 := List.append_cancel_left h
    simp only [List.cons.injEq, and_true] at h5
    rw [h2, h3] at hc
    refine ⟨hc, ?_⟩
    rw [← h5, h2, h3, h4]
  · rw [loopBody_skip m thr _ q p h1 hc] at h
    have h5 := congrArg List.length h
    simp at h5

/-- Every row of a run is appended by the iteration for one of its points, after exactly
the rows before it. -/
theorem written_cover (m : MathPkg α) (thr : α) (pts : List (TrackPoint α)) :
    ∀ (k : Nat) (r : Row α), (runPoints m thr pts).written[k]? = some r →
      ∃ i, i < pts.length ∧
        (runPoints m thr (pts.take i)).written = (runPoints m thr pts).written.take k ∧
        (runPoints m thr (pts.take (i + 1))).written
          = (runPoints m thr pts).written.take k ++ [r] := by
  induction pts using List.reverseRecOn with
  | nil => intro k r h; simp [runPoints, initialState] at h
  | append_singleton l a ih =>
      intro k r h
      have old : ∀ k r, (runPoints m thr l).written[k]? = some r →
          ∃ i, i < (l ++ [a]).length ∧
            (runPoints m thr ((l ++ [a]).take i)).written
              = (runPoints m thr l).written.take k ∧
            (runPoints m thr ((l ++ [a]).take (i + 1))).written
              = (runPoints m thr l).written.take k ++ [r] := by
        intro k r hk
        obtain ⟨i, hi, e1, e2⟩ := ih k r hk
        refine ⟨i, by simp; omega, ?_, ?_⟩
        · rw [List.take_append_of_le_length (by omega)]; exact e1
        · rw [List.take_append_of_le_length (by omega)]; exact e2
      rcases loopBody_written m thr (runPoints m thr l) a with hw | ⟨r0, hw⟩
      · rw [runPoints_concat, hw] at h ⊢
        exact old k r h
      · rw [runPoints_concat, hw] at h ⊢
        rcases Nat.lt_or_ge k (runPoints m thr l).written.length with hlt | hge
        · rw [List.getElem?_append_left hlt] at h
          rw [List.take_append_of_le_length (Nat.le_of_lt hlt)]
          exact old k r h
        · have hk : k = (runPoints m thr l).written.length := by
            have := (List.getElem?_eq_some_iff.mp h).1
            simp at this
            omega
          subst hk
          simp at h
          subst h
          refine ⟨l.length, by simp, ?_, ?_⟩
          · simp
          · rw [List.take_of_length_le (by simp), runPoints_concat, hw]
            simp

/-- The iteration that writes a row: it is not the first one, and the row holds the path
length up to its point, the data of its point and the pace over the span since the row
before. -/
theorem emittedAt_facts (m : MathPkg α) (thr : α) (gpx : GPX α) (i : Nat) (r : Row α)
    (h : EmittedAt m thr gpx i r) :
    ∃ p0 q p, (allPoints gpx)[0]? = some p0 ∧ 1 ≤ i ∧ (allPoints gpx)[i - 1]? = some q ∧
      (allPoints gpx)[i]? = some p ∧
      pathLength m ((allPoints gpx).take (i + 1))
        = pathLength m ((allPoints gpx).take i) + pointDist m q p ∧
      thr ≤ pathLength m ((allPoints gpx).take (i + 1))
        - prevDist (stateAfter m thr gpx i).written ∧
      r = ⟨pathLength m ((allPoints gpx).take (i + 1)), p.Time, p.Ele, p.HR,
            paceOf (pathLength m ((allPoints gpx).take (i + 1))
                - prevDist (stateAfter m thr gpx i).written)
              (elapsedMinutes p.Time
                (prevTime p0.Time (stateAfter m thr gpx i).written))⟩ := by
  unfold EmittedAt stateAfter at h
  unfold stateAfter
  generalize allPoints gpx = pts at h ⊢
  have hi : i < pts.length := by
    by_contra hge
    rw [List.take_of_length_le (by omega), List.take_of_length_le (by omega)] at h
    have := congrArg List.length h
    simp at this
  have hp : pts[i]? = some pts[i] := List.getElem?_eq_getElem hi
  have hsucc : pts.take (i + 1) = pts.take i ++ [pts[i]] := by
    rw [List.take_succ, hp]; rfl
  have hi1 : 1 ≤ i := by
    by_contra h0
    have h0 : i = 0 := by omega
    subst h0
    rw [hsucc] at h
    simp [runPoints_single] at h
  obtain ⟨p0, l, hl⟩ : ∃ p0 l, pts.take i = p0 :: l := by
    cases e : pts.take i with
    | nil =>
        rw [List.take_eq_nil_iff] at e
        rcases e with e | e
        · omega
        · subst e; simp at hi
    | cons a l => exact ⟨a, l, rfl⟩
  have hp0 : pts[0]? = some p0 := by
    have := congrArg List.head? hl
    rw [List.head?_take, if_neg (by omega), List.head?_eq_getElem?] at this
    simpa using this
  have hq : (p0 :: l).getLast? = pts[i - 1]? := by
    rw [← hl, List.getLast?_eq_getElem?, List.length_take, Nat.min_eq_left (by omega),
      List.getElem?_take_of_lt (by omega)]
  have hq2 : pts[i - 1]? = some pts[i - 1] := List.getElem?_eq_getElem (by omega)
  rw [hq2] at hq
  rw [hsucc, hl] at h
  obtain ⟨f1, f2⟩ := emit_facts m thr p0 l pts[i - 1] pts[i] r hq h
  have hlen : pathLength m (pts.take (i + 1))
      = pathLength m (pts.take i) + pointDist m pts[i - 1] pts[i] := by
    rw [hsucc, hl, pathLength_concat m _ _ _ hq]
  refine ⟨p0, pts[i - 1], pts[i], hp0, hi1, hq2, hp, hlen, ?_, ?_⟩
  · rw [hlen, hl]; exact f1
  · rw [hlen, hl]; exact f2

/-- Every row `main` writes is written by the iteration of one point, after exactly the
rows before it. -/
theorem resample_cover (m : MathPkg α) (thr : α) (gpx : GPX α) (k : Nat) (r : Row α)
    (h : (resample m thr gpx)[k]? = some r) :
    ∃ i, EmittedAt m thr gpx i r ∧
      (stateAfter m thr gpx i).written = (resample m thr gpx).take k := by
  unfold resample at h ⊢
  rw [mainLoop_eq_runPoints] at h ⊢
  obtain ⟨i, -, e1, e2⟩ := written_cover m thr (allPoints gpx) k r h
  refine ⟨i, ?_, e1⟩
  unfold EmittedAt stateAfter
  rw [e2, e1]

/-- After `i ≥ 1` points the reference point is the last point consumed and the
accumulated distance is the length of the path over the points consumed. -/
theorem stateAfter_vars (m : MathPkg α) (thr : α) (gpx : GPX α) (i : Nat) (h1 : 1 ≤ i)
    (h2 : i ≤ (allPoints gpx).length) :
    (stateAfter m thr gpx i).lastPoint = (allPoints gpx)[i - 1]? ∧
    (stateAfter m thr gpx i).totalDist = pathLength m ((allPoints gpx).take i) := by
  unfold stateAfter
  generalize allPoints gpx = pts at h2 ⊢
  obtain ⟨p0, l, hl⟩ : ∃ p0 l, pts.take i = p0 :: l := by
    cases e : pts.take i with
    | nil =>
        rw [List.take_eq_nil_iff] at e
        rcases e with e | e
        · omega
        · subst e; simp at h2; omega
    | cons a l => exact ⟨a, l, rfl⟩
  have hq : (pts.take i).getLast? = pts[i - 1]? := by
    rw [List.getLast?_eq_getElem?, List.length_take, Nat.min_eq_left h2,
      List.getElem?_take_of_lt (by omega)]
  obtain ⟨f1, f2, -, -⟩ := runPoints_inv m thr p0 l
  rw [← hl] at f1 f2
  exact ⟨f1.trans hq, f2⟩

/-- Every row `main` writes, against the row before it: the gap reaches the threshold,
and the pace is taken over the span since that row (since the first point for the first
row). -/
theorem row_facts (m : MathPkg α) (thr : α) (gpx : GPX α) (k : Nat) (r : Row α)
    (h : (resample m thr gpx)[k]? = some r) :
    ∃ p0, (allPoints gpx)[0]? = some p0 ∧
      thr ≤ r.distance_m - prevDist ((resample m thr gpx).take k) ∧
      r.pace_min_per_km
        = paceOf (r.distance_m - prevDist ((resample m thr gpx).take k))
            (elapsedMinutes r.timestamp (prevTime p0.Time ((resample m thr gpx).take k))) := by
  obtain ⟨i, hi, hw⟩ := resample_cover m thr gpx k r h
  obtain ⟨p0, q, p, h0, -, -, -, -, hthr, hr⟩ := emittedAt_facts m thr gpx i r hi
  rw [hw] at hthr hr
  refine ⟨p0, h0, ?_, ?_⟩
  · rw [hr]; exact hthr
  · rw [hr]

theorem prevDist_take_succ (rows : List (Row α)) (k : Nat) (a : Row α)
    (h : rows[k]? = some a) : prevDist (rows.take (k + 1)) = a.distance_m := by
  rw [List.take_succ, h]
  exact prevDist_concat _ _

/-- With distances that are never negative: the distance at the last emission is between
0 and the accumulated distance, no row written exceeds it, and the rows written are in
non-decreasing order of distance, in increasing order for a positive threshold. -/
theorem runPoints_order (m : MathPkg α) (thr : α) (hd : ∀ p q, 0 ≤ pointDist m p q)
    (pts : List (TrackPoint α)) :
    0 ≤ (runPoints m thr pts).lastDist ∧
    (runPoints m thr pts).lastDist ≤ (runPoints m thr pts).totalDist ∧
    (∀ r ∈ (runPoints m thr pts).written, r.distance_m ≤ (runPoints m thr pts).lastDist) ∧
    ((runPoints m thr pts).written.map Row.distance_m).Pairwise (fun a b => a ≤ b) ∧
    (0 < thr →
      ((runPoints m thr pts).written.map Row.distance_m).Pairwise (fun a b => a < b)) := by
  induction pts using List.reverseRecOn with
  | nil => simp [runPoints, initialState]
  | append_singleton l a ih =>
      obtain ⟨i0, i1, i2, i3, i4⟩ := ih
      rw [runPoints_concat]
      cases h : (runPoints m thr l).lastPoint with
      | none =>
          rw [loopBody_none m thr _ a h]
          exact ⟨i0, i1, i2, i3, i4⟩
      | some q =>
          have hq := hd q a
          by_cases hc : thr ≤ (runPoints m thr l).totalDist + pointDist m q a
              - (runPoints m thr l).lastDist
          · rw [loopBody_emit m thr _ q a h hc]
            have hle : (runPoints m thr l).lastDist
                ≤ (runPoints m thr l).totalDist + pointDist m q a := by linarith
            refine ⟨le_trans i0 hle, le_refl _, ?_, ?_, ?_⟩
            · intro r hr
              rcases List.mem_append.mp hr with hr | hr
              · exact le_trans (i2 r hr) hle
              · simp at hr; subst hr; exact le_refl _
            · rw [List.map_append, List.pairwise_append]
              refine ⟨i3, by simp, ?_⟩
              intro x hx y hy
              obtain ⟨r, hr, rfl⟩ := List.mem_map.mp hx
              simp at hy; subst hy
              exact le_trans (i2 r hr) hle
            · intro hpos
              rw [List.map_append, List.pairwise_append]
              refine ⟨i4 hpos, by simp, ?_⟩
              intro x hx y hy
              obtain ⟨r, hr, rfl⟩ := List.mem_map.mp hx
              simp at hy; subst hy
              have := i2 r hr
              show r.distance_m < (runPoints m thr l).totalDist + pointDist m q a
              linarith
          · rw [loopBody_skip m thr _ q a h hc]
            exact ⟨i0, le_trans i1 (le_add_of_nonneg_right hq), i2, i3, i4⟩

end Basic

/-! ## Facts about the library functions -/

namespace time

theorem Sub_of_fits (t u : Int) (h1 : minDuration ≤ t - u) (h2 : t - u ≤ maxDuration) :
    Sub t u = t - u := by
  unfold Sub
  rw [if_neg (by omega), if_neg (by omega)]

theorem Sub_eq_zero_iff (t u : Int) : Sub t u = 0 ↔ t = u := by
  unfold Sub minDuration maxDuration
  split_ifs <;> omega

theorem Minutes_eq {α : Type} [LinearOrderedField α] (d : Int) :
    (Minutes d : α) = (d : α) / 60000000000 := by
  have h : d.tmod Minute + Minute * d.tdiv Minute = d := Int.tmod_add_tdiv d Minute
  have h2 : ((d.tmod Minute : Int) : α) + ((Minute : Int) : α) * ((d.tdiv Minute : Int) : α)
      = (d : α) := by
    exact_mod_cast h
  have h3 : ((Minute : Int) : α) = 60000000000 := by
    simp [Minute]
  rw [h3] at h2
  unfold Minutes
  rw [← h2]
  field_simp
  ring

theorem Minutes_eq_zero_iff {α : Type} [LinearOrderedField α] (d : Int) :
    (Minutes d : α) = 0 ↔ d = 0 := by
  rw [Minutes_eq]
  constructor
  · intro h
    have : (d : α) = 0 := by
      rcases div_eq_zero_iff.mp h with h | h
      · exact h
      · norm_num at h
    exact_mod_cast this
  · intro h; simp [h]

end time

section Library

variable {α : Type} [LinearOrderedField α]

theorem elapsedMinutes_of_ne (t u : Int) (h : t ≠ u) :
    (elapsedMinutes t u : α) = time.Minutes (time.Sub t u) := by
  unfold elapsedMinutes
  rw [if_neg]
  rw [time.Minutes_eq_zero_iff, time.Sub_eq_zero_iff]
  exact h

/-- The pace when neither divisor is zero. -/
theorem paceOf_eq (gap timeDiff : α) (hg : gap ≠ 0) (ht : timeDiff ≠ 0) :
    paceOf gap timeDiff = some (1 / (gap / (timeDiff * 1000))) := by
  have h1 : timeDiff * 1000 ≠ 0 := mul_ne_zero ht (by norm_num)
  have h2 : gap / (timeDiff * 1000) ≠ 0 := div_ne_zero hg h1
  simp [paceOf, fdiv, h1, h2]

end Library

section RealFacts

theorem haversine_same (lat lon : ℝ) : haversine realMath lat lon lat lon = 0 := by
  simp [haversine, realMath]

theorem pointDist_vertical (p q : TrackPoint ℝ) (hlat : p.Lat = q.Lat) (hlon : p.Lon = q.Lon) :
    pointDist realMath p q = |q.Ele - p.Ele| := by
  unfold pointDist haversineWithAltitude
  rw [hlat, hlon, haversine_same]
  simp only [realMath, mul_zero, zero_add]
  exact Real.sqrt_mul_self_eq_abs _

/-- Along the equator the great-circle distance is the arc of the longitude difference. -/
theorem haversine_equator (lon1 lon2 : ℝ) (h1 : 0 ≤ lon2 - lon1) (h2 : lon2 - lon1 ≤ 180) :
    haversine realMath 0 lon1 0 lon2 = 6371000 * ((lon2 - lon1) * Real.pi / 180) := by
  have hx0 : 0 ≤ (lon2 * Real.pi / 180 - lon1 * Real.pi / 180) / 2 := by
    have : 0 ≤ (lon2 - lon1) * Real.pi := mul_nonneg h1 Real.pi_pos.le
    linarith
  have hx1 : (lon2 * Real.pi / 180 - lon1 * Real.pi / 180) / 2 ≤ Real.pi / 2 := by
    have : (lon2 - lon1) * Real.pi ≤ 180 * Real.pi :=
      mul_le_mul_of_nonneg_right h2 Real.pi_pos.le
    linarith
  have hs : 0 ≤ Real.sin ((lon2 * Real.pi / 180 - lon1 * Real.pi / 180) / 2) :=
    Real.sin_nonneg_of_nonneg_of_le_pi hx0 (by linarith [Real.pi_pos])
  simp only [haversine, toRadians, realMath, EarthRadius, zero_mul, zero_div, sub_self,
    Real.sin_zero, Real.cos_zero, mul_zero, zero_add, one_mul]
  rw [Real.sqrt_mul_self hs, Real.arcsin_sin (by linarith [Real.pi_pos]) hx1]
  ring

theorem pointDist_equator (p q : TrackPoint ℝ) (hp : p.Lat = 0) (hq : q.Lat = 0)
    (he : p.Ele = q.Ele) (h1 : 0 ≤ q.Lon - p.Lon) (h2 : q.Lon - p.Lon ≤ 180) :
    pointDist realMath p q = 6371000 * ((q.Lon - p.Lon) * Real.pi / 180) := by
  unfold pointDist haversineWithAltitude
  rw [hp, hq, he, haversine_equator _ _ h1 h2]
  simp only [realMath, sub_self, mul_zero, add_zero]
  exact Real.sqrt_mul_self (by have := Real.pi_pos; positivity)

theorem pointDist_nonneg (p q : TrackPoint ℝ) : 0 ≤ pointDist realMath p q := by
  unfold pointDist haversineWithAltitude
  exact Real.sqrt_nonneg _

theorem haversine_eq_term {α : Type} [LinearOrderedField α] (m : MathPkg α)
    (lat1 lon1 lat2 lon2 : α) :
    haversine m lat1 lon1 lat2 lon2
      = EarthRadius * (2 * m.Asin (m.Sqrt (haversineTerm m lat1 lon1 lat2 lon2))) := rfl

/-- Over the reals the haversine term is half of one minus the cosine of the central
angle, hence between 0 and 1, whatever the four angles. -/
theorem haversineTerm_bounds (lat1 lon1 lat2 lon2 : ℝ) :
    0 ≤ haversineTerm realMath lat1 lon1 lat2 lon2 ∧
    haversineTerm realMath lat1 lon1 lat2 lon2 ≤ 1 := by
  simp only [haversineTerm, toRadians, realMath]
  generalize lat1 * Real.pi / 180 = a
  generalize lat2 * Real.pi / 180 = b
  generalize lon1 * Real.pi / 180 = c
  generalize lon2 * Real.pi / 180 = d
  have h1 : Real.cos (b - a)
      = 1 - 2 * (Real.sin ((b - a) / 2) * Real.sin ((b - a) / 2)) := by
    have e : b - a = 2 * ((b - a) / 2) := by ring
    have hc := Real.cos_two_mul ((b - a) / 2)
    have hs := Real.sin_sq_add_cos_sq ((b - a) / 2)
    rw [← e] at hc
    nlinarith
  have h2 : Real.cos a * Real.cos b = (Real.cos (b - a) + Real.cos (b + a)) / 2 := by
    rw [Real.cos_sub, Real.cos_add]; ring
  have h3 := Real.neg_one_le_cos (b + a)
  have h4 := Real.cos_le_one (b + a)
  have h5 : 0 ≤ Real.sin ((d - c) / 2) * Real.sin ((d - c) / 2) := mul_self_nonneg _
  have h6 : Real.sin ((d - c) / 2) * Real.sin ((d - c) / 2) ≤ 1 := by
    have := Real.sin_sq_le_one ((d - c) / 2); nlinarith
  have h7 : 0 ≤ Real.sin ((b - a) / 2) * Real.sin ((b - a) / 2) := mul_self_nonneg _
  have h8 : Real.sin ((b - a) / 2) * Real.sin ((b - a) / 2) ≤ 1 := by
    have := Real.sin_sq_le_one ((b - a) / 2); nlinarith
  set A := Real.sin ((b - a) / 2) * Real.sin ((b - a) / 2)
  set B := Real.sin ((d - c) / 2) * Real.sin ((d - c) / 2)
  set C := Real.cos a * Real.cos b
  have hC1 : -A ≤ C := by rw [h2, h1]; linarith
  have hC2 : C ≤ 1 - A := by rw [h2, h1]; linarith
  have e : A + Real.cos a * Real.cos b * Real.sin ((d - c) / 2) * Real.sin ((d - c) / 2)
      = A + C * B := by
    simp only [A, B, C]; ring
  rw [e]
  constructor
  · nlinarith
  · nlinarith

/-- Over the reals the great-circle distance is not negative. -/
theorem haversine_nonneg (lat1 lon1 lat2 lon2 : ℝ) :
    0 ≤ haversine realMath lat1 lon1 lat2 lon2 := by
  rw [haversine_eq_term]
  have h : 0 ≤ Real.arcsin (Real.sqrt (haversineTerm realMath lat1 lon1 lat2 lon2)) :=
    Real.arcsin_nonneg.mpr (Real.sqrt_nonneg _)
  have hR : (0 : ℝ) ≤ EarthRadius := by unfold EarthRadius; norm_num
  exact mul_nonneg hR (mul_nonneg (by norm_num) h)

/-- Along a meridian the great-circle distance is the arc of the latitude difference. -/
theorem haversine_meridian (lat1 lat2 lon : ℝ) (h1 : 0 ≤ lat2 - lat1)
    (h2 : lat2 - lat1 ≤ 180) :
    haversine realMath lat1 lon lat2 lon = 6371000 * ((lat2 - lat1) * Real.pi / 180) := by
  have hx0 : 0 ≤ (lat2 * Real.pi / 180 - lat1 * Real.pi / 180) / 2 := by
    have : 0 ≤ (lat2 - lat1) * Real.pi := mul_nonneg h1 Real.pi_pos.le
    linarith
  have hx1 : (lat2 * Real.pi / 180 - lat1 * Real.pi / 180) / 2 ≤ Real.pi / 2 := by
    have : (lat2 - lat1) * Real.pi ≤ 180 * Real.pi :=
      mul_le_mul_of_nonneg_right h2 Real.pi_pos.le
    linarith
  have hs : 0 ≤ Real.sin ((lat2 * Real.pi / 180 - lat1 * Real.pi / 180) / 2) :=
    Real.sin_nonneg_of_nonneg_of_le_pi hx0 (by linarith [Real.pi_pos])
  simp only [haversine, toRadians, realMath, EarthRadius, zero_div, sub_self,
    Real.sin_zero, mul_zero, add_zero]
  rw [Real.sqrt_mul_self hs, Real.arcsin_sin (by linarith [Real.pi_pos]) hx1]
  ring

end RealFacts

/-! ## The sample tracks, evaluated -/

section Samples

theorem elapsedMinutes_eval {α : Type} [LinearOrderedField α] (t u : Int) (h : t ≠ u)
    (h1 : time.minDuration ≤ t - u) (h2 : t - u ≤ time.maxDuration) :
    (elapsedMinutes t u : α) = ((t - u : Int) : α) / 60000000000 := by
  rw [elapsedMinutes_of_ne t u h, time.Minutes_eq, time.Sub_of_fits t u h1 h2]

/-- An emitting iteration with the distance and the pace already evaluated. -/
theorem loopBody_emit_eval {α : Type} [LinearOrderedField α] (m : MathPkg α) (thr : α)
    (s : LoopState α) (q p : TrackPoint α) (d total : α) (v : Option α)
    (h : s.lastPoint = some q) (hd : pointDist m q p = d) (ht : s.totalDist + d = total)
    (hc : thr ≤ total - s.lastDist)
    (hv : paceOf (total - s.lastDist) (elapsedMinutes p.Time s.lastTime) = v) :
    loopBody m thr s p =
      ⟨total, some p, total, p.Time, s.written ++ [⟨total, p.Time, p.Ele, p.HR, v⟩]⟩ := by
  subst hd ht hv
  exact loopBody_emit m thr s q p h hc

theorem climb_points :
    allPoints climb = [⟨0, 0, 0, 0, 90⟩, ⟨0, 0, 300, 60000000000, 95⟩,
      ⟨0, 0, 600, 120000000000, 99⟩] := rfl

theorem climb_state1 :
    runPoints realMath 200 [(⟨0, 0, 0, 0, 90⟩ : TrackPoint ℝ)]
      = ⟨0, some ⟨0, 0, 0, 0, 90⟩, 0, 0, []⟩ := by
  simp only [runPoints, List.foldl_cons, List.foldl_nil]
  rw [loopBody_none _ _ _ _ rfl]; rfl

theorem climb_state2 :
    runPoints realMath 200
        [(⟨0, 0, 0, 0, 90⟩ : TrackPoint ℝ), ⟨0, 0, 300, 60000000000, 95⟩]
      = ⟨300, some ⟨0, 0, 300, 60000000000, 95⟩, 300, 60000000000,
          [⟨300, 60000000000, 300, 95, some (10 / 3)⟩]⟩ := by
  have e : [(⟨0, 0, 0, 0, 90⟩ : TrackPoint ℝ), ⟨0, 0, 300, 60000000000, 95⟩]
      = [⟨0, 0, 0, 0, 90⟩] ++ [⟨0, 0, 300, 60000000000, 95⟩] := rfl
  rw [e, runPoints_concat, climb_state1]
  refine loopBody_emit_eval _ _ _ ⟨0, 0, 0, 0, 90⟩ _ 300 300 _ rfl ?_ ?_ ?_ ?_
  · rw [pointDist_vertical _ _ (by rfl) (by rfl)]; norm_num
  · norm_num
  · norm_num
  · rw [elapsedMinutes_eval _ _ (by decide) (by decide) (by decide),
      paceOf_eq _ _ (by norm_num) (by norm_num)]
    norm_num

theorem climb_state3 :
    runPoints realMath 200
        [(⟨0, 0, 0, 0, 90⟩ : TrackPoint ℝ), ⟨0, 0, 300, 60000000000, 95⟩,
          ⟨0, 0, 600, 120000000000, 99⟩]
      = ⟨600, some ⟨0, 0, 600, 120000000000, 99⟩, 600, 120000000000,
          [⟨300, 60000000000, 300, 95, some (10 / 3)⟩,
           ⟨600, 120000000000, 600, 99, some (10 / 3)⟩]⟩ := by
  have e : [(⟨0, 0, 0, 0, 90⟩ : TrackPoint ℝ), ⟨0, 0, 300, 60000000000, 95⟩,
        ⟨0, 0, 600, 120000000000, 99⟩]
      = [⟨0, 0, 0, 0, 90⟩, ⟨0, 0, 300, 60000000000, 95⟩]
        ++ [⟨0, 0, 600, 120000000000, 99⟩] := rfl
  rw [e, runPoints_concat, climb_state2]
  refine loopBody_emit_eval _ _ _ ⟨0, 0, 300, 60000000000, 95⟩ _ 300 600 _ rfl ?_ ?_ ?_ ?_
  · rw [pointDist_vertical _ _ (by rfl) (by rfl)]; norm_num
  · norm_num
  · norm_num
  · rw [elapsedMinutes_eval _ _ (by decide) (by decide) (by decide),
      paceOf_eq _ _ (by norm_num) (by norm_num)]
    norm_num

theorem climb_rows :
    resample realMath 200 climb
      = [⟨300, 60000000000, 300, 95, some (10 / 3)⟩,
         ⟨600, 120000000000, 600, 99, some (10 / 3)⟩] := by
  rw [resample, mainLoop_eq_runPoints, climb_points, climb_state3]

/-- In `climb` the iteration for point 1 writes the first row. -/
theorem climb_emittedAt_one :
    EmittedAt realMath 200 climb 1 ⟨300, 60000000000, 300, 95, some (10 / 3)⟩ := by
  unfold EmittedAt stateAfter
  rw [climb_points]
  simp only [List.take_succ_cons, List.take_zero]
  rw [climb_state1, climb_state2]
  rfl

/-- The length of 0.002° of the equator lies between 222.38 m and 222.40 m. -/
theorem equatorStep_bounds :
    222.38 < 6371000 * 0.002 * Real.pi / 180 ∧ 6371000 * 0.002 * Real.pi / 180 < 222.40 := by
  have h1 := Real.pi_gt_d6
  have h2 := Real.pi_lt_d6
  constructor <;> norm_num at h1 h2 ⊢ <;> linarith

theorem equatorTrack_rows (hr0 hr1 hr2 : Int) :
    resample realMath 200 (equatorTrack hr0 hr1 hr2)
      = [⟨6371000 * 0.002 * Real.pi / 180, 60000000000, 0, hr1,
            some (1000 / (6371000 * 0.002 * Real.pi / 180))⟩,
         ⟨2 * (6371000 * 0.002 * Real.pi / 180), 120000000000, 0, hr2,
            some (1000 / (6371000 * 0.002 * Real.pi / 180))⟩] := by
  obtain ⟨hlo, hhi⟩ := equatorStep_bounds
  have s1 : runPoints realMath 200 [(⟨0, 0, 0, 0, hr0⟩ : TrackPoint ℝ)]
      = ⟨0, some ⟨0, 0, 0, 0, hr0⟩, 0, 0, []⟩ := by
    simp only [runPoints, List.foldl_cons, List.foldl_nil]
    rw [loopBody_none _ _ _ _ rfl]; rfl
  have d1 : pointDist realMath ⟨0, 0, 0, 0, hr0⟩ ⟨0, 0.002, 0, 60000000000, hr1⟩
      = 6371000 * 0.002 * Real.pi / 180 := by
    rw [pointDist_equator _ _ (by rfl) (by rfl) (by rfl) (by norm_num) (by norm_num)]
    ring
  have d2 : pointDist realMath ⟨0, 0.002, 0, 60000000000, hr1⟩
      ⟨0, 0.004, 0, 120000000000, hr2⟩ = 6371000 * 0.002 * Real.pi / 180 := by
    rw [pointDist_equator _ _ (by rfl) (by rfl) (by rfl) (by norm_num) (by norm_num)]
    ring
  have e : (allPoints (equatorTrack hr0 hr1 hr2))
      = ([⟨0, 0, 0, 0, hr0⟩] ++ [⟨0, 0.002, 0, 60000000000, hr1⟩])
        ++ [⟨0, 0.004, 0, 120000000000, hr2⟩] := rfl
  rw [resample, mainLoop_eq_runPoints, e, runPoints_concat, runPoints_concat, s1]
  rw [loopBody_emit_eval realMath 200 _ ⟨0, 0, 0, 0, hr0⟩ ⟨0, 0.002, 0, 60000000000, hr1⟩
    (6371000 * 0.002 * Real.pi / 180) (6371000 * 0.002 * Real.pi / 180)
    (some (1000 / (6371000 * 0.002 * Real.pi / 180))) rfl d1 (by simp)
    (by simp only [sub_zero]; linarith) (by
      show paceOf _ (elapsedMinutes 60000000000 0) = _
      rw [elapsedMinutes_eval 60000000000 0 (by decide) (by decide) (by decide),
        paceOf_eq _ _ (by simp only [sub_zero]; linarith) (by norm_num), one_div_div]
      norm_num)]
  rw [loopBody_emit_eval realMath 200 _ ⟨0, 0.002, 0, 60000000000, hr1⟩
    ⟨0, 0.004, 0, 120000000000, hr2⟩
    (6371000 * 0.002 * Real.pi / 180) (2 * (6371000 * 0.002 * Real.pi / 180))
    (some (1000 / (6371000 * 0.002 * Real.pi / 180))) rfl d2 (by simp only; ring)
    (by simp only; linarith) (by
      have hg : 2 * (6371000 * 0.002 * Real.pi / 180) - 6371000 * 0.002 * Real.pi / 180
          = 6371000 * 0.002 * Real.pi / 180 := by ring
      show paceOf (2 * (6371000 * 0.002 * Real.pi / 180) - 6371000 * 0.002 * Real.pi / 180)
        (elapsedMinutes 120000000000 60000000000) = _
      rw [hg, elapsedMinutes_eval 120000000000 60000000000 (by decide) (by decide)
          (by decide),
        paceOf_eq _ _ (by linarith) (by norm_num), one_div_div]
      norm_num)]
  rfl

end Samples

/-! ## Properties of the resampling loop -/

section Claims

variable {α : Type} [LinearOrderedField α]

/-- C1: for every track and every threshold, the cumulative distance of the first row
written is at least the threshold, and so is the difference between the cumulative
distances of every two consecutive rows. -/
theorem emission_gap_ge_threshold (m : MathPkg α) (saveIntervalM : α) (gpx : GPX α) :
    (∀ r, (resample m saveIntervalM gpx)[0]? = some r → saveIntervalM ≤ r.distance_m) ∧
    (∀ k a b, (resample m saveIntervalM gpx)[k]? = some a →
      (resample m saveIntervalM gpx)[k + 1]? = some b →
      saveIntervalM ≤ b.distance_m - a.distance_m) := by
  constructor
  · intro r h
    obtain ⟨p0, -, hthr, -⟩ := row_facts m saveIntervalM gpx 0 r h
    simpa [prevDist] using hthr
  · intro k a b ha hb
    obtain ⟨p0, -, hthr, -⟩ := row_facts m saveIntervalM gpx (k + 1) b hb
    rw [prevDist_take_succ _ k a ha] at hthr
    exact hthr

/-- The track `climb` at threshold 200: its two rows satisfy the hypotheses of C1 and
show the two gaps of 300 m. -/
theorem emission_gap_ge_threshold_witness :
    ∃ a b, (resample realMath 200 climb)[0]? = some a ∧
      (resample realMath 200 climb)[1]? = some b ∧
      (200 : ℝ) ≤ a.distance_m ∧ (200 : ℝ) ≤ b.distance_m - a.distance_m :=
  ⟨⟨300, 60000000000, 300, 95, some (10 / 3)⟩, ⟨600, 120000000000, 600, 99, some (10 / 3)⟩,
    by rw [climb_rows]; rfl, by rw [climb_rows]; rfl,
    (emission_gap_ge_threshold realMath 200 climb).1 _ (by rw [climb_rows]; rfl),
    (emission_gap_ge_threshold realMath 200 climb).2 0 _ _ (by rw [climb_rows]; rfl)
      (by rw [climb_rows]; rfl)⟩

/-- C2: for every track and every threshold, positive or not, the cumulative distances of
the rows written are in non-decreasing order (each is at most every later one); for a
positive threshold they are in strictly increasing order. -/
theorem emitted_distance_monotone (saveIntervalM : ℝ) (gpx : GPX ℝ) :
    ((resample realMath saveIntervalM gpx).map Row.distance_m).Pairwise (fun a b => a ≤ b) ∧
    (0 < saveIntervalM →
      ((resample realMath saveIntervalM gpx).map Row.distance_m).Pairwise
        (fun a b => a < b)) := by
  unfold resample
  rw [mainLoop_eq_runPoints]
  obtain ⟨-, -, -, h1, h2⟩ :=
    runPoints_order realMath saveIntervalM pointDist_nonneg (allPoints gpx)
  exact ⟨h1, h2⟩

/-- The track `climb` at the positive threshold 200: the distances 300 and 600 of its rows
increase strictly. -/
theorem emitted_distance_monotone_witness :
    (0 : ℝ) < 200 ∧
    ((resample realMath 200 climb).map Row.distance_m).Pairwise (fun a b => a < b) ∧
    (resample realMath 200 climb).map Row.distance_m = [300, 600] :=
  ⟨by norm_num, (emitted_distance_monotone 200 climb).2 (by norm_num),
    by rw [climb_rows]; rfl⟩

/-- C7: the track of three points on the equator, at longitudes 0°, 0.002° and 0.004°,
elevation 0 and one minute apart, has at threshold 200 exactly two rows written: one at
the second point with the cumulative distance `6371000 * 0.002 * π / 180`, between 222.38
and 222.40 m, and one at the third point with twice that distance, each with the
timestamp, elevation and heart rate of its point and the pace `1000 / (6371000 * 0.002 *
π / 180)`, between 4.49 and 4.50 minutes per kilometre. -/
theorem equator_track_two_rows (hr0 hr1 hr2 : Int) :
    resample realMath 200
        ⟨[⟨[⟨0, 0, 0, 0, hr0⟩, ⟨0, 0.002, 0, 60000000000, hr1⟩,
            ⟨0, 0.004, 0, 120000000000, hr2⟩]⟩]⟩
      = [⟨6371000 * 0.002 * Real.pi / 180, 60000000000, 0, hr1,
            some (1000 / (6371000 * 0.002 * Real.pi / 180))⟩,
         ⟨2 * (6371000 * 0.002 * Real.pi / 180), 120000000000, 0, hr2,
            some (1000 / (6371000 * 0.002 * Real.pi / 180))⟩] ∧
    222.38 < 6371000 * 0.002 * Real.pi / 180 ∧
    6371000 * 0.002 * Real.pi / 180 < 222.40 ∧
    444.76 < 2 * (6371000 * 0.002 * Real.pi / 180) ∧
    2 * (6371000 * 0.002 * Real.pi / 180) < 444.80 ∧
    4.49 < 1000 / (6371000 * 0.002 * Real.pi / 180) ∧
    1000 / (6371000 * 0.002 * Real.pi / 180) < 4.50 := by
  obtain ⟨hlo, hhi⟩ := equatorStep_bounds
  have hpos : (0 : ℝ) < 6371000 * 0.002 * Real.pi / 180 := by linarith
  refine ⟨equatorTrack_rows hr0 hr1 hr2, hlo, hhi, by linarith, by linarith, ?_, ?_⟩
  · rw [lt_div_iff₀ hpos]; linarith
  · rw [div_lt_iff₀ hpos]; linarith

/-- C8: for every threshold, a track with no point or with exactly one point, in any
arrangement of segments, has no row written; the loop ends in its initial state, or, with
one point, in the initial state with that point as reference point and its timestamp as
last-emission timestamp. -/
theorem short_track_emits_nothing (m : MathPkg α) (saveIntervalM : α) (gpx : GPX α)
    (h : (allPoints gpx).length ≤ 1) :
    resample m saveIntervalM gpx = [] ∧
    (allPoints gpx = [] → mainLoop m saveIntervalM gpx = initialState) ∧
    (∀ p, allPoints gpx = [p] →
      mainLoop m saveIntervalM gpx = ⟨0, some p, 0, p.Time, []⟩) := by
  unfold resample
  rw [mainLoop_eq_runPoints]
  cases hp : allPoints gpx with
  | nil => simp [runPoints, initialState]
  | cons a l =>
      cases l with
      | nil => simp [runPoints, loopBody, initialState]
      | cons b l => rw [hp] at h; simp at h

/-- The track `lonePoint`, one point between two empty segments, at threshold -5: nothing
is written. -/
theorem short_track_emits_nothing_witness :
    (allPoints lonePoint).length ≤ 1 ∧ resample realMath (-5) lonePoint = [] :=
  ⟨by decide, (short_track_emits_nothing realMath (-5) lonePoint (by decide)).1⟩

/-- C9: for every list of segments and every threshold, the loop ends in the same state,
and so has written the same rows, as for the single segment that holds the points of all
segments in order: no loop variable is reset between segments. -/
theorem segments_are_concatenated (m : MathPkg α) (saveIntervalM : α) (gpx : GPX α) :
    mainLoop m saveIntervalM gpx = mainLoop m saveIntervalM ⟨[⟨allPoints gpx⟩]⟩ ∧
    resample m saveIntervalM gpx = resample m saveIntervalM ⟨[⟨allPoints gpx⟩]⟩ := by
  have h : mainLoop m saveIntervalM gpx = mainLoop m saveIntervalM ⟨[⟨allPoints gpx⟩]⟩ := by
    rw [mainLoop_eq_runPoints, mainLoop_eq_runPoints]
    simp [allPoints]
  exact ⟨h, by unfold resample; rw [h]⟩

/-- C10: a row written by the iteration for point number `i` holds the timestamp,
elevation and heart rate of that point and the distance accumulated once that point is
consumed; and every row `main` writes is written by the iteration for one point, after
exactly the rows before it. -/
theorem row_carries_trigger_point (m : MathPkg α) (saveIntervalM : α) (gpx : GPX α) :
    (∀ i r, EmittedAt m saveIntervalM gpx i r →
      ∃ p, (allPoints gpx)[i]? = some p ∧ r.timestamp = p.Time ∧ r.ele = p.Ele ∧
        r.hr = p.HR ∧ r.distance_m = (stateAfter m saveIntervalM gpx (i + 1)).totalDist) ∧
    (∀ k r, (resample m saveIntervalM gpx)[k]? = some r →
      ∃ i, EmittedAt m saveIntervalM gpx i r ∧
        (stateAfter m saveIntervalM gpx i).written = (resample m saveIntervalM gpx).take k) := by
  constructor
  · intro i r h
    obtain ⟨p0, q, p, -, -, -, hp, -, -, hr⟩ := emittedAt_facts m saveIntervalM gpx i r h
    have hi : i + 1 ≤ (allPoints gpx).length := by
      have := (List.getElem?_eq_some_iff.mp hp).1
      omega
    have ht := (stateAfter_vars m saveIntervalM gpx (i + 1) (by omega) hi).2
    refine ⟨p, hp, ?_, ?_, ?_, ?_⟩ <;> rw [hr]
    exact ht.symm
  · intro k r h
    exact resample_cover m saveIntervalM gpx k r h

/-- In `climb` the first row is written by the iteration for point 1 and holds its
timestamp, elevation and heart rate. -/
theorem row_carries_trigger_point_witness :
    EmittedAt realMath 200 climb 1 ⟨300, 60000000000, 300, 95, some (10 / 3)⟩ ∧
    (∃ p : TrackPoint ℝ, (allPoints climb)[1]? = some p ∧ (60000000000 : Int) = p.Time ∧
      (300 : ℝ) = p.Ele ∧ (95 : Int) = p.HR ∧
      (300 : ℝ) = (stateAfter realMath 200 climb 2).totalDist) ∧
    (resample realMath 200 climb)[0]? = some ⟨300, 60000000000, 300, 95, some (10 / 3)⟩ ∧
    ∃ i, EmittedAt realMath 200 climb i ⟨300, 60000000000, 300, 95, some (10 / 3)⟩ ∧
      (stateAfter realMath 200 climb i).written = (resample realMath 200 climb).take 0 :=
  ⟨climb_emittedAt_one,
    (row_carries_trigger_point realMath 200 climb).1 1 _ climb_emittedAt_one,
    by rw [climb_rows]; rfl,
    (row_carries_trigger_point realMath 200 climb).2 0 _ (by rw [climb_rows]; rfl)⟩

/-- C14: from the equator to one degree of latitude north of it the great-circle distance
is `6371000 * π / 180` metres, which differs from 111195 by at most 1 % of 111195 (in
fact by less than a metre). -/
theorem one_degree_of_latitude :
    haversine realMath 0 0 1 0 = 6371000 * Real.pi / 180 ∧
    |haversine realMath 0 0 1 0 - 111195| ≤ 0.01 * 111195 ∧
    |haversine realMath 0 0 1 0 - 111195| < 1 := by
  have h : haversine realMath 0 0 1 0 = 6371000 * Real.pi / 180 := by
    rw [haversine_meridian 0 1 0 (by norm_num) (by norm_num)]
    ring
  have h1 := Real.pi_gt_d6
  have h2 := Real.pi_lt_d6
  have hlt : |haversine realMath 0 0 1 0 - 111195| < 1 := by
    rw [h, abs_lt]
    constructor <;> norm_num at h1 h2 ⊢ <;> linarith
  exact ⟨h, le_trans hlt.le (by norm_num), hlt⟩

end Claims

/-! ## The program over its arithmetic: basic facts -/

/-! ### Facts about `float64` -/

theorem f64_sub_self (x : F64) (h : F64.isFinite x = true) : F64.sub x x = F64.zero := by
  cases x with
  | nan => simp [F64.isFinite] at h
  | inf s => simp [F64.isFinite] at h
  | fin s m e =>
      cases s <;> simp [F64.sub, F64.neg, F64.add, F64.scaled, F64.zero]

theorem f64_mul_zero_right (s : Bool) (m : Nat) (e : Int) :
    F64.mul (F64.fin s m e) F64.zero = F64.fin s 0 (-1074) := by
  simp [F64.mul, F64.zero, F64.roundNat]

theorem f64_add_zero_signed (s : Bool) :
    F64.add F64.zero (F64.fin s 0 (-1074)) = F64.zero := by
  simp [F64.add, F64.zero, F64.scaled]

/-! ### Rounding to `float64` -/

namespace Machine

section Facts

variable {F : Type}

theorem mach_runPoints_concat (A : Arith F) (thr : F) (pts : List (TrackPoint F))
    (p : TrackPoint F) :
    runPoints A thr (pts ++ [p]) = loopBody A thr (runPoints A thr pts) p := by
  simp [runPoints, List.foldl_append]

theorem mach_mainLoop_eq_runPoints (A : Arith F) (thr : F) (gpx : GPX F) :
    mainLoop A thr gpx = runPoints A thr (allPoints gpx) := by
  unfold mainLoop runPoints allPoints
  rw [List.foldl_flatten, List.foldl_map]

theorem mach_loopBody_none (A : Arith F) (thr : F) (s : LoopState F) (p : TrackPoint F)
    (h : s.lastPoint = none) :
    loopBody A thr s p = { s with lastPoint := some p, lastTime := p.Time } := by
  unfold loopBody
  rw [h]

theorem mach_loopBody_emit (A : Arith F) (thr : F) (s : LoopState F) (q p : TrackPoint F)
    (h : s.lastPoint = some q)
    (hc : A.ge (A.sub (A.add s.totalDist (pointDist A q p)) s.lastDist) thr = true) :
    loopBody A thr s p =
      { totalDist := A.add s.totalDist (pointDist A q p)
        lastPoint := some p
        lastDist := A.add s.totalDist (pointDist A q p)
        lastTime := p.Time
        written := s.written ++
          [⟨A.add s.totalDist (pointDist A q p), p.Time, p.Ele, p.HR,
            paceOf A (A.sub (A.add s.totalDist (pointDist A q p)) s.lastDist)
              (elapsedMinutes A p.Time s.lastTime)⟩] } := by
  unfold loopBody
  rw [h]
  simp only [pointDist] at hc ⊢
  rw [if_pos hc]
  rfl

theorem mach_loopBody_skip (A : Arith F) (thr : F) (s : LoopState F) (q p : TrackPoint F)
    (h : s.lastPoint = some q)
    (hc : ¬ A.ge (A.sub (A.add s.totalDist (pointDist A q p)) s.lastDist) thr = true) :
    loopBody A thr s p =
      { s with totalDist := A.add s.totalDist (pointDist A q p), lastPoint := some p } := by
  unfold loopBody
  rw [h]
  simp only [pointDist] at hc ⊢
  rw [if_neg hc]

theorem mach_stepDists_concat (A : Arith F) :
    ∀ (l : List (TrackPoint F)) (q a : TrackPoint F), l.getLast? = some q →
      stepDists A (l ++ [a]) = stepDists A l ++ [pointDist A q a]
  | [], _, _, h => by simp at h
  | [p], q, a, h => by
      simp at h
      subst h
      simp [stepDists]
  | p :: p2 :: rest, q, a, h => by
      have h2 : (p2 :: rest).getLast? = some q := by
        rw [List.getLast?_cons_cons] at h
        exact h
      have ih := mach_stepDists_concat A (p2 :: rest) q a h2
      have e : p :: p2 :: rest ++ [a] = p :: p2 :: (rest ++ [a]) := rfl
      rw [e]
      simp only [stepDists]
      rw [← List.cons_append, ih]
      rfl

theorem mach_runningSum_concat (A : Arith F) (l : List (TrackPoint F)) (q a : TrackPoint F)
    (h : l.getLast? = some q) :
    runningSum A (l ++ [a]) = A.add (runningSum A l) (pointDist A q a) := by
  unfold runningSum
  rw [mach_stepDists_concat A l q a h, List.foldl_append]
  rfl

theorem mach_prevDist_concat (A : Arith F) (rows : List (Row F)) (r : Row F) :
    prevDist A (rows ++ [r]) = r.distance_m := by
  simp [prevDist]

/-- What the loop variables hold after a non-empty run of points: the reference point is
the last point, `totalDist` the running sum so far, `lastDist` the distance of the last
row written (0 when there is none). -/
theorem mach_runPoints_inv (A : Arith F) (thr : F) (p0 : TrackPoint F)
    (rest : List (TrackPoint F)) :
    (runPoints A thr (p0 :: rest)).lastPoint = (p0 :: rest).getLast? ∧
    (runPoints A thr (p0 :: rest)).totalDist = runningSum A (p0 :: rest) ∧
    (runPoints A thr (p0 :: rest)).lastDist
      = prevDist A (runPoints A thr (p0 :: rest)).written := by
  induction rest using List.reverseRecOn with
  | nil =>
      simp [runPoints, loopBody, initialState, runningSum, stepDists, prevDist]
  | append_singleton l a ih =>
      obtain ⟨h1, h2, h3⟩ := ih
      obtain ⟨q, hq⟩ : ∃ q, (p0 :: l).getLast? = some q :=
        ⟨(p0 :: l).getLast (List.cons_ne_nil _ _), List.getLast?_eq_getLast _ _⟩
      rw [hq] at h1
      have hstep : runPoints A thr (p0 :: (l ++ [a]))
          = loopBody A thr (runPoints A thr (p0 :: l)) a := by
        rw [← List.cons_append, mach_runPoints_concat]
      have hlen : runningSum A (p0 :: (l ++ [a]))
          = A.add (runningSum A (p0 :: l)) (pointDist A q a) := by
        rw [← List.cons_append, mach_runningSum_concat A _ q a hq]
      have hlast : (p0 :: (l ++ [a])).getLast? = some a := by
        rw [← List.cons_append, List.getLast?_append]
        simp
      rw [hstep, hlen, hlast]
      by_cases hc : A.ge (A.sub (A.add (runPoints A thr (p0 :: l)).totalDist
          (pointDist A q a)) (runPoints A thr (p0 :: l)).lastDist) thr = true
      · rw [mach_loopBody_emit A thr _ q a h1 hc]
        simp [h2, mach_prevDist_concat]
      · rw [mach_loopBody_skip A thr _ q a h1 hc]
        simp [h2, h3]

/-- An iteration leaves the rows written so far in place and adds at most one. -/
theorem mach_loopBody_written (A : Arith F) (thr : F) (s : LoopState F) (p : TrackPoint F) :
    (loopBody A thr s p).written = s.written ∨
      ∃ r, (loopBody A thr s p).written = s.written ++ [r] := by
  cases h : s.lastPoint with
  | none => left; rw [mach_loopBody_none A thr s p h]
  | some q =>
      by_cases hc : A.ge (A.sub (A.add s.totalDist (pointDist A q p)) s.lastDist) thr = true
      · right
        rw [mach_loopBody_emit A thr s q p h hc]
        exact ⟨_, rfl⟩
      · left
        rw [mach_loopBody_skip A thr s q p h hc]

/-- Nothing is written by the iteration for the first point. -/
theorem mach_runPoints_single (A : Arith F) (thr : F) (p : TrackPoint F) :
    (runPoints A thr [p]).written = [] := by
  simp [runPoints, loopBody, initialState]

/-- The row an iteration appends, read off the loop variables before it. -/
theorem mach_emit_facts (A : Arith F) (thr : F) (p0 : TrackPoint F) (l : List (TrackPoint F))
    (q p : TrackPoint F) (r : Row F) (hq : (p0 :: l).getLast? = some q)
    (h : (runPoints A thr (p0 :: l ++ [p])).written
      = (runPoints A thr (p0 :: l)).written ++ [r]) :
    A.ge (A.sub (A.add (runningSum A (p0 :: l)) (pointDist A q p))
        (runPoints A thr (p0 :: l)).lastDist) thr = true ∧
    r = ⟨A.add (runningSum A (p0 :: l)) (pointDist A q p), p.Time, p.Ele, p.HR,
          paceOf A (A.sub (A.add (runningSum A (p0 :: l)) (pointDist A q p))
              (runPoints A thr (p0 :: l)).lastDist)
            (elapsedMinutes A p.Time (runPoints A thr (p0 :: l)).lastTime)⟩ := by
  obtain ⟨h1, h2, -⟩ := mach_runPoints_inv A thr p0 l
  rw [hq] at h1
  rw [mach_runPoints_concat] at h
  by_cases hc : A.ge (A.sub (A.add (runPoints A thr (p0 :: l)).totalDist (pointDist A q p))
      (runPoints A thr (p0 :: l)).lastDist) thr = true
  · rw [mach_loopBody_emit A thr _ q p h1 hc] at h
    have h5 := List.append_cancel_left h
    simp only [List.cons.injEq, and_true] at h5
    rw [h2] at hc
    refine ⟨hc, ?_⟩
    rw [← h5, h2]
  · rw [mach_loopBody_skip A thr _ q p h1 hc] at h
    have h5 := congrArg List.length h
    simp at h5

/-- Every row of a run is appended by the iteration for one of its points, after exactly
the rows before it. -/
theorem mach_written_cover (A : Arith F) (thr : F) (pts : List (TrackPoint F)) :
    ∀ (k : Nat) (r : Row F), (runPoints A thr pts).written[k]? = some r →
      ∃ i, i < pts.length ∧
        (runPoints A thr (pts.take i)).written = (runPoints A thr pts).written.take k ∧
        (runPoints A thr (pts.take (i + 1))).written
          = (runPoints A thr pts).written.take k ++ [r] := by
  induction pts using List.reverseRecOn with
  | nil => intro k r h; simp [runPoints, initialState] at h
  | append_singleton l a ih =>
      intro k r h
      have old : ∀ k r, (runPoints A thr l).written[k]? = some r →
          ∃ i, i < (l ++ [a]).length ∧
            (runPoints A thr ((l ++ [a]).take i)).written
              = (runPoints A thr l).written.take k ∧
            (runPoints A thr ((l ++ [a]).take (i + 1))).written
              = (runPoints A thr l).written.take k ++ [r] := by
        intro k r hk
        obtain ⟨i, hi, e1, e2⟩ := ih k r hk
        refine ⟨i, by simp; omega, ?_, ?_⟩
        · rw [List.take_append_of_le_length (by omega)]; exact e1
        · rw [List.take_append_of_le_length (by omega)]; exact e2
      rcases mach_loopBody_written A thr (runPoints A thr l) a with hw | ⟨r0, hw⟩
      · rw [mach_runPoints_concat, hw] at h ⊢
        exact old k r h
      · rw [mach_runPoints_concat, hw] at h ⊢
        rcases Nat.lt_or_ge k (runPoints A thr l).written.length with hlt | hge
        · rw [List.getElem?_append_left hlt] at h
          rw [List.take_append_of_le_length (Nat.le_of_lt hlt)]
          exact old k r h
        · have hk : k = (runPoints A thr l).written.length := by
            have := (List.getElem?_eq_some_iff.mp h).1
            simp at this
            omega
          subst hk
          simp at h
          subst h
          refine ⟨l.length, by simp, ?_, ?_⟩
          · simp
          · rw [List.take_of_length_le (by simp), mach_runPoints_concat, hw]
            simp

/-- The rows written after some of the points stay the first rows written after all. -/
theorem mach_written_take (A : Arith F) (thr : F) (pts : List (TrackPoint F)) (i : Nat) :
    (runPoints A thr (pts.take i)).written <+: (runPoints A thr pts).written := by
  induction pts using List.reverseRecOn with
  | nil => simp
  | append_singleton l a ih =>
      rcases Nat.lt_or_ge i (l.length + 1) with hlt | hge
      · rw [List.take_append_of_le_length (by omega), mach_runPoints_concat]
        rcases mach_loopBody_written A thr (runPoints A thr l) a with hw | ⟨r0, hw⟩
        · rw [hw]; exact ih
        · rw [hw]; exact ih.trans (List.prefix_append _ _)
      · rw [List.take_of_length_le (by simp; omega)]

/-- The iteration that writes a row: it is not the first one, the threshold test holds in
it, and the row holds the running sum up to its point and the data of its point. -/
theorem mach_emittedAt_facts (A : Arith F) (thr : F) (gpx : GPX F) (i : Nat) (r : Row F)
    (h : EmittedAt A thr gpx i r) :
    ∃ q p, 1 ≤ i ∧ (allPoints gpx)[i - 1]? = some q ∧ (allPoints gpx)[i]? = some p ∧
      (stateAfter A thr gpx i).totalDist = runningSum A ((allPoints gpx).take i) ∧
      (stateAfter A thr gpx i).lastDist = prevDist A (stateAfter A thr gpx i).written ∧
      runningSum A ((allPoints gpx).take (i + 1))
        = A.add (runningSum A ((allPoints gpx).take i)) (pointDist A q p) ∧
      A.ge (A.sub (runningSum A ((allPoints gpx).take (i + 1)))
        (stateAfter A thr gpx i).lastDist) thr = true ∧
      r = ⟨runningSum A ((allPoints gpx).take (i + 1)), p.Time, p.Ele, p.HR,
            paceOf A (A.sub (runningSum A ((allPoints gpx).take (i + 1)))
                (stateAfter A thr gpx i).lastDist)
              (elapsedMinutes A p.Time (stateAfter A thr gpx i).lastTime)⟩ := by
  unfold EmittedAt stateAfter at h
  unfold stateAfter
  generalize allPoints gpx = pts at h ⊢
  have hi : i < pts.length := by
    by_contra hge
    rw [List.take_of_length_le (by omega), List.take_of_length_le (by omega)] at h
    have := congrArg List.length h
    simp at this
  have hp : pts[i]? = some pts[i] := List.getElem?_eq_getElem hi
  have hsucc : pts.take (i + 1) = pts.take i ++ [pts[i]] := by
    rw [List.take_succ, hp]; rfl
  have hi1 : 1 ≤ i := by
    by_contra h0
    have h0 : i = 0 := by omega
    subst h0
    rw [hsucc] at h
    simp [mach_runPoints_single] at h
  obtain ⟨p0, l, hl⟩ : ∃ p0 l, pts.take i = p0 :: l := by
    cases e : pts.take i with
    | nil =>
        rw [List.take_eq_nil_iff] at e
        rcases e with e | e
        · omega
        · subst e; simp at hi
    | cons a l => exact ⟨a, l, rfl⟩
  have hq : (p0 :: l).getLast? = pts[i - 1]? := by
    rw [← hl, List.getLast?_eq_getElem?, List.length_take, Nat.min_eq_left (by omega),
      List.getElem?_take_of_lt (by omega)]
  have hq2 : pts[i - 1]? = some pts[i - 1] := List.getElem?_eq_getElem (by omega)
  rw [hq2] at hq
  rw [hsucc, hl] at h
  obtain ⟨f1, f2⟩ := mach_emit_facts A thr p0 l pts[i - 1] pts[i] r hq h
  obtain ⟨-, g2, g3⟩ := mach_runPoints_inv A thr p0 l
  have hlen : runningSum A (pts.take (i + 1))
      = A.add (runningSum A (pts.take i)) (pointDist A pts[i - 1] pts[i]) := by
    rw [hsucc, hl, mach_runningSum_concat A _ _ _ hq]
  refine ⟨pts[i - 1], pts[i], hi1, hq2, hp, ?_, ?_, hlen, ?_, ?_⟩
  · rw [hl]; exact g2
  · rw [hl]; exact g3
  · rw [hlen, hl]; exact f1
  · rw [hlen, hl]; exact f2

/-- Every row `main` writes is written by the iteration of one point, after exactly the
rows before it. -/
theorem mach_resample_cover (A : Arith F) (thr : F) (gpx : GPX F) (k : Nat) (r : Row F)
    (h : (resample A thr gpx)[k]? = some r) :
    ∃ i, EmittedAt A thr gpx i r ∧
      (stateAfter A thr gpx i).written = (resample A thr gpx).take k := by
  unfold resample at h ⊢
  rw [mach_mainLoop_eq_runPoints] at h ⊢
  obtain ⟨i, -, e1, e2⟩ := mach_written_cover A thr (allPoints gpx) k r h
  refine ⟨i, ?_, e1⟩
  unfold EmittedAt stateAfter
  rw [e2, e1]

/-- A row written by the iteration of a point is one of the rows `main` writes. -/
theorem mach_emitted_mem (A : Arith F) (thr : F) (gpx : GPX F) (i : Nat) (r : Row F)
    (h : EmittedAt A thr gpx i r) : r ∈ resample A thr gpx := by
  unfold EmittedAt stateAfter at h
  unfold resample
  rw [mach_mainLoop_eq_runPoints]
  have hp := mach_written_take A thr (allPoints gpx) (i + 1)
  rw [h] at hp
  exact hp.subset (by simp)

/-- After `i ≥ 1` points the reference point is the last point consumed and the
accumulated distance is the running sum over the points consumed. -/
theorem mach_stateAfter_vars (A : Arith F) (thr : F) (gpx : GPX F) (i : Nat) (h1 : 1 ≤ i)
    (h2 : i ≤ (allPoints gpx).length) :
    (stateAfter A thr gpx i).lastPoint = (allPoints gpx)[i - 1]? ∧
    (stateAfter A thr gpx i).totalDist = runningSum A ((allPoints gpx).take i) := by
  unfold stateAfter
  generalize allPoints gpx = pts at h2 ⊢
  obtain ⟨p0, l, hl⟩ : ∃ p0 l, pts.take i = p0 :: l := by
    cases e : pts.take i with
    | nil =>
        rw [List.take_eq_nil_iff] at e
        rcases e with e | e
        · omega
        · subst e; simp at h2; omega
    | cons a l => exact ⟨a, l, rfl⟩
  have hq : (pts.take i).getLast? = pts[i - 1]? := by
    rw [List.getLast?_eq_getElem?, List.length_take, Nat.min_eq_left h2,
      List.getElem?_take_of_lt (by omega)]
  obtain ⟨f1, f2, -⟩ := mach_runPoints_inv A thr p0 l
  rw [← hl] at f1 f2
  exact ⟨f1.trans hq, f2⟩

/-- In an arithmetic in which `x - x >= thr` is false for every `x`, the threshold test is
false on the loop variables between any two iterations. -/
theorem mach_test_false (A : Arith F) (thr : F)
    (hlaw : ∀ x, A.ge (A.sub x x) thr = false) (pts : List (TrackPoint F)) :
    A.ge (A.sub (runPoints A thr pts).totalDist (runPoints A thr pts).lastDist) thr
      = false := by
  induction pts using List.reverseRecOn with
  | nil => exact hlaw _
  | append_singleton l a ih =>
      rw [mach_runPoints_concat]
      cases h : (runPoints A thr l).lastPoint with
      | none =>
          rw [mach_loopBody_none A thr _ a h]
          exact ih
      | some q =>
          by_cases hc : A.ge (A.sub (A.add (runPoints A thr l).totalDist (pointDist A q a))
              (runPoints A thr l).lastDist) thr = true
          · rw [mach_loopBody_emit A thr _ q a h hc]
            exact hlaw _
          · rw [mach_loopBody_skip A thr _ q a h hc]
            simpa using hc

theorem mach_haversine_same (lat lon : F64)
    (hlat : F64.isFinite (toRadians float64 lat) = true)
    (hlon : F64.isFinite (toRadians float64 lon) = true)
    (hcos : F64.isFinite (F64.mul (GoMath.Cos (toRadians float64 lat))
      (GoMath.Cos (toRadians float64 lat))) = true) :
    haversine float64 lat lon lat lon = F64.zero := by
  have e : haversine float64 lat lon lat lon
      = F64.mul (F64.ofInt 6371000) (F64.mul (F64.ofInt 2) (GoMath.Asin (F64.sqrt
          (F64.add
            (F64.mul
              (GoMath.Sin (F64.div (F64.sub (toRadians float64 lat) (toRadians float64 lat))
                (F64.ofInt 2)))
              (GoMath.Sin (F64.div (F64.sub (toRadians float64 lat) (toRadians float64 lat))
                (F64.ofInt 2))))
            (F64.mul (F64.mul (F64.mul (GoMath.Cos (toRadians float64 lat))
                (GoMath.Cos (toRadians float64 lat)))
              (GoMath.Sin (F64.div (F64.sub (toRadians float64 lon) (toRadians float64 lon))
                (F64.ofInt 2))))
              (GoMath.Sin (F64.div (F64.sub (toRadians float64 lon) (toRadians float64 lon))
                (F64.ofInt 2)))))))) := rfl
  rw [e, f64_sub_self _ hlat, f64_sub_self _ hlon]
  have h1 : F64.div F64.zero (F64.ofInt 2) = F64.zero := by decide!
  have h2 : GoMath.Sin F64.zero = F64.zero := by decide!
  have h3 : F64.mul F64.zero F64.zero = F64.zero := by decide!
  have h4 : F64.sqrt F64.zero = F64.zero := by decide!
  have h5 : GoMath.Asin F64.zero = F64.zero := by decide!
  have h6 : F64.mul (F64.ofInt 2) F64.zero = F64.zero := by decide!
  have h7 : F64.mul (F64.ofInt 6371000) F64.zero = F64.zero := by decide!
  rw [h1, h2, h3]
  generalize F64.mul (GoMath.Cos (toRadians float64 lat)) (GoMath.Cos (toRadians float64 lat))
    = c at hcos
  cases c with
  | nan => simp [F64.isFinite] at hcos
  | inf s => simp [F64.isFinite] at hcos
  | fin s m e =>
      rw [f64_mul_zero_right, f64_mul_zero_right, f64_add_zero_signed, h4, h5, h6, h7]

/-- The distance between two points at the same position with a finite squared cosine of
the latitude: the square root of the squared difference of the elevations. -/
theorem mach_pointDist_same (lat lon e1 e2 : F64) (t1 t2 h1 h2 : Int)
    (hlat : F64.isFinite (toRadians float64 lat) = true)
    (hlon : F64.isFinite (toRadians float64 lon) = true)
    (hcos : F64.isFinite (F64.mul (GoMath.Cos (toRadians float64 lat))
      (GoMath.Cos (toRadians float64 lat))) = true) :
    pointDist float64 ⟨lat, lon, e1, t1, h1⟩ ⟨lat, lon, e2, t2, h2⟩
      = F64.sqrt (F64.add F64.zero (F64.mul (F64.sub e2 e1) (F64.sub e2 e1))) := by
  have e : pointDist float64 ⟨lat, lon, e1, t1, h1⟩ ⟨lat, lon, e2, t2, h2⟩
      = F64.sqrt (F64.add (F64.mul (haversine float64 lat lon lat lon)
          (haversine float64 lat lon lat lon)) (F64.mul (F64.sub e2 e1) (F64.sub e2 e1))) := rfl
  have h3 : F64.mul F64.zero F64.zero = F64.zero := by decide!
  rw [e, mach_haversine_same lat lon hlat hlon hcos, h3]

/-- The distance between two points at latitude 0, longitude 0. -/
theorem mach_pointDist_spot (e1 e2 : F64) (t1 t2 h1 h2 : Int) :
    pointDist float64 ⟨F64.ofInt 0, F64.ofInt 0, e1, t1, h1⟩ ⟨F64.ofInt 0, F64.ofInt 0, e2, t2, h2⟩
      = F64.sqrt (F64.add F64.zero (F64.mul (F64.sub e2 e1) (F64.sub e2 e1))) :=
  mach_pointDist_same _ _ _ _ _ _ _ _ (by decide!) (by decide!) (by decide!)

/-- The distance of the loop between two points, spelled out in `float64`. -/
theorem mach_pointDist_mk (lat1 lon1 e1 lat2 lon2 e2 : F64) (t1 t2 h1 h2 : Int) :
    pointDist float64 ⟨lat1, lon1, e1, t1, h1⟩ ⟨lat2, lon2, e2, t2, h2⟩
      = F64.sqrt (F64.add
          (F64.mul (haversine float64 lat1 lon1 lat2 lon2) (haversine float64 lat1 lon1 lat2 lon2))
          (F64.mul (F64.sub e2 e1) (F64.sub e2 e1))) := rfl

/-- The great-circle distance from the haversine term, in `float64`. -/
theorem mach_haversine_of_term (lat1 lon1 lat2 lon2 : F64) :
    haversine float64 lat1 lon1 lat2 lon2
      = F64.mul (F64.ofInt 6371000) (F64.mul (F64.ofInt 2)
          (GoMath.Asin (F64.sqrt (haversineTerm float64 lat1 lon1 lat2 lon2)))) := rfl

theorem mach_stateAfter_succ (A : Arith F) (thr : F) (gpx : GPX F) (i : Nat) (p : TrackPoint F)
    (hp : (allPoints gpx)[i]? = some p) :
    stateAfter A thr gpx (i + 1) = loopBody A thr (stateAfter A thr gpx i) p := by
  unfold stateAfter
  rw [List.take_succ, hp]
  exact mach_runPoints_concat _ _ _ _

theorem mach_eval_first (A : Arith F) (thr : F) (gpx : GPX F) (lat lon ele : F) (tm hr : Int)
    (hp : (allPoints gpx)[0]? = some ⟨lat, lon, ele, tm, hr⟩) :
    stateAfter A thr gpx 1 = ⟨A.ofInt 0, some ⟨lat, lon, ele, tm, hr⟩, A.ofInt 0, tm, []⟩ := by
  rw [mach_stateAfter_succ A thr gpx 0 _ hp]
  rfl

/-- An emitting iteration with the distance, the total and the pace already evaluated. -/
theorem mach_eval_emit (A : Arith F) (thr : F) (gpx : GPX F) (i : Nat) (q : TrackPoint F)
    (lat lon ele : F) (tm hr : Int) (T L d T1 pace : F) (t : Int) (w : List (Row F))
    (hs : stateAfter A thr gpx i = ⟨T, some q, L, t, w⟩)
    (hp : (allPoints gpx)[i]? = some ⟨lat, lon, ele, tm, hr⟩)
    (hd : pointDist A q ⟨lat, lon, ele, tm, hr⟩ = d) (hT : A.add T d = T1)
    (hc : A.ge (A.sub T1 L) thr = true)
    (hpace : paceOf A (A.sub T1 L) (elapsedMinutes A tm t) = pace) :
    stateAfter A thr gpx (i + 1)
      = ⟨T1, some ⟨lat, lon, ele, tm, hr⟩, T1, tm, w ++ [⟨T1, tm, ele, hr, pace⟩]⟩ := by
  rw [mach_stateAfter_succ A thr gpx i _ hp, hs]
  have hc2 : A.ge (A.sub (A.add (LoopState.mk T (some q) L t w).totalDist
      (pointDist A q ⟨lat, lon, ele, tm, hr⟩)) (LoopState.mk T (some q) L t w).lastDist) thr
      = true := by
    show A.ge (A.sub (A.add T (pointDist A q ⟨lat, lon, ele, tm, hr⟩)) L) thr = true
    rw [hd, hT]; exact hc
  rw [mach_loopBody_emit A thr _ q _ rfl hc2]
  show LoopState.mk (A.add T (pointDist A q ⟨lat, lon, ele, tm, hr⟩))
      (some ⟨lat, lon, ele, tm, hr⟩) (A.add T (pointDist A q ⟨lat, lon, ele, tm, hr⟩)) tm
      (w ++ [⟨A.add T (pointDist A q ⟨lat, lon, ele, tm, hr⟩), tm, ele, hr,
        paceOf A (A.sub (A.add T (pointDist A q ⟨lat, lon, ele, tm, hr⟩)) L)
          (elapsedMinutes A tm t)⟩]) = _
  rw [hd, hT, hpace]

/-- An iteration that writes nothing, with the distance and the total already evaluated. -/
theorem mach_eval_skip (A : Arith F) (thr : F) (gpx : GPX F) (i : Nat) (q : TrackPoint F)
    (lat lon ele : F) (tm hr : Int) (T L d T1 : F) (t : Int) (w : List (Row F))
    (hs : stateAfter A thr gpx i = ⟨T, some q, L, t, w⟩)
    (hp : (allPoints gpx)[i]? = some ⟨lat, lon, ele, tm, hr⟩)
    (hd : pointDist A q ⟨lat, lon, ele, tm, hr⟩ = d) (hT : A.add T d = T1)
    (hc : A.ge (A.sub T1 L) thr = false) :
    stateAfter A thr gpx (i + 1) = ⟨T1, some ⟨lat, lon, ele, tm, hr⟩, L, t, w⟩ := by
  rw [mach_stateAfter_succ A thr gpx i _ hp, hs]
  have hc2 : ¬ A.ge (A.sub (A.add (LoopState.mk T (some q) L t w).totalDist
      (pointDist A q ⟨lat, lon, ele, tm, hr⟩)) (LoopState.mk T (some q) L t w).lastDist) thr
      = true := by
    show ¬ A.ge (A.sub (A.add T (pointDist A q ⟨lat, lon, ele, tm, hr⟩)) L) thr = true
    rw [hd, hT, hc]; simp
  rw [mach_loopBody_skip A thr _ q _ rfl hc2]
  show LoopState.mk (A.add T (pointDist A q ⟨lat, lon, ele, tm, hr⟩))
      (some ⟨lat, lon, ele, tm, hr⟩) L t w = _
  rw [hd, hT]

theorem mach_resample_eq_stateAfter (A : Arith F) (thr : F) (gpx : GPX F) (n : Nat)
    (hn : (allPoints gpx).length ≤ n) :
    resample A thr gpx = (stateAfter A thr gpx n).written := by
  unfold resample stateAfter
  rw [mach_mainLoop_eq_runPoints, List.take_of_length_le hn]

/-- For a positive threshold `x - x >= threshold` is false in `float64`, whatever `x`. -/
theorem f64_sub_self_below (thr : F64) (hpos : F64.gt thr (F64.ofInt 0) = true) (x : F64) :
    F64.ge (F64.sub x x) thr = false := by
  have h0 : F64.ofInt 0 = F64.fin false 0 (-1074) := by decide!
  rw [h0] at hpos
  have hz : F64.ge (F64.fin false 0 (-1074)) thr = false := by
    unfold F64.gt at hpos
    cases h : F64.ge (F64.fin false 0 (-1074)) thr with
    | false => rfl
    | true => rw [h] at hpos; simp at hpos
  cases x with
  | nan => cases thr <;> rfl
  | inf s => cases s <;> cases thr <;> rfl
  | fin s m e =>
      have e1 : F64.sub (F64.fin s m e) (F64.fin s m e) = F64.fin false 0 (-1074) :=
        f64_sub_self _ rfl
      rw [e1, hz]

end Facts

section MachineSamples

/-! ### The sample tracks, evaluated in `float64` -/

theorem zigzag_state1 : stateAfter float64 (F64.ofInt 200) zigzag 1
    = ⟨F64.ofInt 0, (allPoints zigzag)[0]?, F64.ofInt 0, 0, []⟩ :=
  mach_eval_first float64 _ zigzag _ _ _ _ _ rfl

theorem zigzag_state2 : stateAfter float64 (F64.ofInt 200) zigzag 2
    = ⟨F64.ofInt 150, (allPoints zigzag)[1]?, F64.ofInt 0, 0, []⟩ :=
  mach_eval_skip float64 _ zigzag 1 _ _ _ _ _ _ _ _ (F64.ofInt 150) _ _ _ zigzag_state1 rfl
    ((mach_pointDist_spot _ _ _ _ _ _).trans (by decide!)) (by decide!) (by decide!)

theorem zigzag_state3 : stateAfter float64 (F64.ofInt 200) zigzag 3
    = ⟨F64.ofInt 300, (allPoints zigzag)[2]?, F64.ofInt 300, 120000000000,
        [⟨F64.ofInt 300, 120000000000, F64.ofInt 0, 92, F64.ofDec 6666666666666667 (-15)⟩]⟩ :=
  mach_eval_emit float64 _ zigzag 2 _ _ _ _ _ _ _ _ (F64.ofInt 150) _ _ _ _ zigzag_state2 rfl
    ((mach_pointDist_spot _ _ _ _ _ _).trans (by decide!)) (by decide!) (by decide!) (by decide!)

theorem zigzag_state4 : stateAfter float64 (F64.ofInt 200) zigzag 4
    = ⟨F64.ofInt 450, (allPoints zigzag)[3]?, F64.ofInt 300, 120000000000,
        [⟨F64.ofInt 300, 120000000000, F64.ofInt 0, 92, F64.ofDec 6666666666666667 (-15)⟩]⟩ :=
  mach_eval_skip float64 _ zigzag 3 _ _ _ _ _ _ _ _ (F64.ofInt 150) _ _ _ zigzag_state3 rfl
    ((mach_pointDist_spot _ _ _ _ _ _).trans (by decide!)) (by decide!) (by decide!)

theorem zigzag_state5 : stateAfter float64 (F64.ofInt 200) zigzag 5
    = ⟨F64.ofInt 600, (allPoints zigzag)[4]?, F64.ofInt 600, 240000000000,
        [⟨F64.ofInt 300, 120000000000, F64.ofInt 0, 92, F64.ofDec 6666666666666667 (-15)⟩,
         ⟨F64.ofInt 600, 240000000000, F64.ofInt 0, 94, F64.ofDec 6666666666666667 (-15)⟩]⟩ :=
  mach_eval_emit float64 _ zigzag 4 _ _ _ _ _ _ _ _ (F64.ofInt 150) _ _ _ _ zigzag_state4 rfl
    ((mach_pointDist_spot _ _ _ _ _ _).trans (by decide!)) (by decide!) (by decide!) (by decide!)

theorem zigzag_rows : resample float64 (F64.ofInt 200) zigzag
    = [⟨F64.ofInt 300, 120000000000, F64.ofInt 0, 92, F64.ofDec 6666666666666667 (-15)⟩,
       ⟨F64.ofInt 600, 240000000000, F64.ofInt 0, 94, F64.ofDec 6666666666666667 (-15)⟩] := by
  rw [mach_resample_eq_stateAfter float64 _ zigzag 5 (by decide), zigzag_state5]

theorem zigzag_emittedAt_four : EmittedAt float64 (F64.ofInt 200) zigzag 4
    ⟨F64.ofInt 600, 240000000000, F64.ofInt 0, 94, F64.ofDec 6666666666666667 (-15)⟩ := by
  unfold EmittedAt
  rw [zigzag_state5, zigzag_state4]
  rfl

theorem roundingTrack_state1 : stateAfter float64 (F64.ofInt 2) roundingTrack 1
    = ⟨F64.ofInt 0, (allPoints roundingTrack)[0]?, F64.ofInt 0, 0, []⟩ :=
  mach_eval_first float64 _ roundingTrack _ _ _ _ _ rfl

theorem roundingTrack_state2 : stateAfter float64 (F64.ofInt 2) roundingTrack 2
    = ⟨F64.fin false (2 ^ 53 - 1) (-52), (allPoints roundingTrack)[1]?, F64.ofInt 0, 0, []⟩ :=
  mach_eval_skip float64 _ roundingTrack 1 _ _ _ _ _ _ _ _ (F64.fin false (2 ^ 53 - 1) (-52)) _ _ _
    roundingTrack_state1 rfl
    ((mach_pointDist_spot _ _ _ _ _ _).trans (by decide!)) (by decide!) (by decide!)

theorem roundingTrack_state3 : stateAfter float64 (F64.ofInt 2) roundingTrack 3
    = ⟨F64.ofInt 3, (allPoints roundingTrack)[2]?, F64.ofInt 3, 120000000000,
        [⟨F64.ofInt 3, 120000000000, F64.fin false (2 ^ 53 - 2) (-53), 92,
          F64.ofDec 6666666666666666 (-13)⟩]⟩ :=
  mach_eval_emit float64 _ roundingTrack 2 _ _ _ _ _ _ _ _ (F64.ofInt 1) _ _ _ _
    roundingTrack_state2 rfl
    ((mach_pointDist_spot _ _ _ _ _ _).trans (by decide!)) (by decide!) (by decide!) (by decide!)

theorem roundingTrack_rows : resample float64 (F64.ofInt 2) roundingTrack
    = [⟨F64.ofInt 3, 120000000000, F64.fin false (2 ^ 53 - 2) (-53), 92,
          F64.ofDec 6666666666666666 (-13)⟩] := by
  rw [mach_resample_eq_stateAfter float64 _ roundingTrack 3 (by decide), roundingTrack_state3]

theorem roundingTrack_steps : stepDists float64 (allPoints roundingTrack)
    = [F64.fin false (2 ^ 53 - 1) (-52), F64.ofInt 1] := by
  have e : stepDists float64 (allPoints roundingTrack)
      = [pointDist float64 ⟨F64.ofInt 0, F64.ofInt 0, F64.ofInt 0, 0, 90⟩
            ⟨F64.ofInt 0, F64.ofInt 0, F64.fin false (2 ^ 53 - 1) (-52), 60000000000, 91⟩,
         pointDist float64
            ⟨F64.ofInt 0, F64.ofInt 0, F64.fin false (2 ^ 53 - 1) (-52), 60000000000, 91⟩
            ⟨F64.ofInt 0, F64.ofInt 0, F64.fin false (2 ^ 53 - 2) (-53), 120000000000, 92⟩] :=
    rfl
  rw [e, (mach_pointDist_spot _ _ _ _ _ _).trans (by decide! :
      F64.sqrt (F64.add F64.zero (F64.mul (F64.sub (F64.fin false (2 ^ 53 - 1) (-52)) (F64.ofInt 0))
        (F64.sub (F64.fin false (2 ^ 53 - 1) (-52)) (F64.ofInt 0)))) = F64.fin false (2 ^ 53 - 1) (-52)),
    (mach_pointDist_spot _ _ _ _ _ _).trans (by decide! :
      F64.sqrt (F64.add F64.zero (F64.mul
        (F64.sub (F64.fin false (2 ^ 53 - 2) (-53)) (F64.fin false (2 ^ 53 - 1) (-52)))
        (F64.sub (F64.fin false (2 ^ 53 - 2) (-53)) (F64.fin false (2 ^ 53 - 1) (-52)))))
        = F64.ofInt 1)]

/-- The haversine term of the antipodal pair 30.52411° N, 0° E and 30.52411° S, 180° E is
`1 + 2^-51`. -/
theorem antipode_term :
    haversineTerm float64 (F64.ofDec 3052411 (-5)) (F64.ofInt 0)
      (F64.neg (F64.ofDec 3052411 (-5))) (F64.ofInt 180) = F64.fin false (2 ^ 52 + 2) (-52) := by
  decide!

theorem antipode_haversine :
    haversine float64 (F64.ofDec 3052411 (-5)) (F64.ofInt 0)
      (F64.neg (F64.ofDec 3052411 (-5))) (F64.ofInt 180) = F64.nan := by
  rw [mach_haversine_of_term, antipode_term]
  decide!

/-- The haversine term of the pair 90.42° N, 0° E and 89.58° N, 180° E is `-2^-67`. -/
theorem polar_term :
    haversineTerm float64 (F64.ofDec 9042 (-2)) (F64.ofInt 0) (F64.ofDec 8958 (-2))
      (F64.ofInt 180) = F64.fin true (2 ^ 52) (-119) := by
  decide!

theorem polar_haversine :
    haversine float64 (F64.ofDec 9042 (-2)) (F64.ofInt 0) (F64.ofDec 8958 (-2))
      (F64.ofInt 180) = F64.nan := by
  rw [mach_haversine_of_term, polar_term]
  decide!

theorem zigzag_emittedAt_two : EmittedAt float64 (F64.ofInt 200) zigzag 2
    ⟨F64.ofInt 300, 120000000000, F64.ofInt 0, 92, F64.ofDec 6666666666666667 (-15)⟩ := by
  unfold EmittedAt
  rw [zigzag_state3, zigzag_state2]
  rfl

theorem roundingTrack_emittedAt_two : EmittedAt float64 (F64.ofInt 2) roundingTrack 2
    ⟨F64.ofInt 3, 120000000000, F64.fin false (2 ^ 53 - 2) (-53), 92,
      F64.ofDec 6666666666666666 (-13)⟩ := by
  unfold EmittedAt
  rw [roundingTrack_state3, roundingTrack_state2]
  rfl

end MachineSamples

/-! ## Properties of the program in its arithmetic -/

section MachineClaims

variable {F : Type}

/-- C3, refuted as stated: at threshold 2 the track `roundingTrack` has one row, written at
its last point, with the cumulative distance 3; the two step distances are `2 - 2^-52` and
1, whose sum is `3 - 2^-52`, not 3. -/
theorem written_distance_not_exact_sum :
    (resample float64 (F64.ofInt 2) roundingTrack).map Row.distance_m = [F64.ofInt 3] ∧
    stepDists float64 (allPoints roundingTrack)
      = [F64.fin false (2 ^ 53 - 1) (-52), F64.ofInt 1] ∧
    F64.toRat (F64.fin false (2 ^ 53 - 1) (-52)) + F64.toRat (F64.ofInt 1) = 3 - 1 / 2 ^ 52 ∧
    F64.toRat (F64.ofInt 3) = 3 ∧
    F64.toRat (F64.fin false (2 ^ 53 - 1) (-52)) + F64.toRat (F64.ofInt 1)
      ≠ F64.toRat (F64.ofInt 3) := by
  have h1 : F64.ofInt 1 = F64.fin false (2 ^ 52) (-52) := by decide!
  have h3 : F64.ofInt 3 = F64.fin false (3 * 2 ^ 51) (-51) := by decide!
  refine ⟨by rw [roundingTrack_rows]; rfl, roundingTrack_steps, ?_, ?_, ?_⟩
  · rw [h1]; norm_num [F64.toRat]
  · rw [h3]; norm_num [F64.toRat]
  · rw [h1, h3]; norm_num [F64.toRat]

/-- C3, amended: every row `main` writes is written by the iteration of a point number
`i ≥ 1` and holds the running sum of the loop up to that point; a row written by the
iteration of point `i` is one of the rows of `main` and holds that running sum; after any
`i ≥ 1` points, whether rows were written or not, the reference point is the last point
consumed and the accumulated distance is the running sum over the points consumed; and the
running sum starts at 0 and grows, from one point to the next, by one addition of the
arithmetic, of the distance between these two adjacent points. -/
theorem cumulative_distance_is_running_sum (A : Arith F) (saveIntervalM : F) (gpx : GPX F) :
    (∀ (k : Nat) (r : Row F), (resample A saveIntervalM gpx)[k]? = some r →
      ∃ i, 1 ≤ i ∧ i < (allPoints gpx).length ∧ EmittedAt A saveIntervalM gpx i r ∧
        r.distance_m = runningSum A ((allPoints gpx).take (i + 1))) ∧
    (∀ (i : Nat) (r : Row F), EmittedAt A saveIntervalM gpx i r →
      r ∈ resample A saveIntervalM gpx ∧
      r.distance_m = runningSum A ((allPoints gpx).take (i + 1))) ∧
    (∀ i, 1 ≤ i → i ≤ (allPoints gpx).length →
      (stateAfter A saveIntervalM gpx i).lastPoint = (allPoints gpx)[i - 1]? ∧
      (stateAfter A saveIntervalM gpx i).totalDist
        = runningSum A ((allPoints gpx).take i)) ∧
    runningSum A ((allPoints gpx).take 1) = A.ofInt 0 ∧
    (∀ (i : Nat) (q p : TrackPoint F), (allPoints gpx)[i]? = some q → (allPoints gpx)[i + 1]? = some p →
      runningSum A ((allPoints gpx).take (i + 2))
        = A.add (runningSum A ((allPoints gpx).take (i + 1))) (pointDist A q p)) := by
  refine ⟨?_, ?_, ?_, ?_, ?_⟩
  · intro k r h
    obtain ⟨i, hi, -⟩ := mach_resample_cover A saveIntervalM gpx k r h
    obtain ⟨q, p, h1, -, hp, -, -, -, -, hr⟩ := mach_emittedAt_facts A saveIntervalM gpx i r hi
    exact ⟨i, h1, (List.getElem?_eq_some_iff.mp hp).1, hi, by rw [hr]⟩
  · intro i r h
    obtain ⟨q, p, -, -, -, -, -, -, -, hr⟩ := mach_emittedAt_facts A saveIntervalM gpx i r h
    exact ⟨mach_emitted_mem A saveIntervalM gpx i r h, by rw [hr]⟩
  · intro i h1 h2
    exact mach_stateAfter_vars A saveIntervalM gpx i h1 h2
  · cases h : allPoints gpx with
    | nil => rfl
    | cons a l => rfl
  · intro i q p hq hp
    have hlen : i + 1 < (allPoints gpx).length := (List.getElem?_eq_some_iff.mp hp).1
    have e2 : (allPoints gpx).take (i + 2) = (allPoints gpx).take (i + 1) ++ [p] := by
      rw [List.take_succ, hp]; rfl
    have hl : ((allPoints gpx).take (i + 1)).getLast? = some q := by
      rw [List.getLast?_eq_getElem?, List.length_take, Nat.min_eq_left (by omega),
        List.getElem?_take_of_lt (by omega)]
      simpa using hq
    rw [e2, mach_runningSum_concat A _ q p hl]

/-- In `zigzag` at threshold 200 the second row is written at point 4, two points after
the first row: it holds 600, the running sum over all five points, while point 4 lies at
distance 0 from point 2, where the first row was written. -/
theorem cumulative_distance_is_running_sum_witness :
    EmittedAt float64 (F64.ofInt 200) zigzag 4
      ⟨F64.ofInt 600, 240000000000, F64.ofInt 0, 94, F64.ofDec 6666666666666667 (-15)⟩ ∧
    (⟨F64.ofInt 600, 240000000000, F64.ofInt 0, 94, F64.ofDec 6666666666666667 (-15)⟩
        ∈ resample float64 (F64.ofInt 200) zigzag ∧
      F64.ofInt 600 = runningSum float64 ((allPoints zigzag).take (4 + 1))) ∧
    EmittedAt float64 (F64.ofInt 200) zigzag 2
      ⟨F64.ofInt 300, 120000000000, F64.ofInt 0, 92, F64.ofDec 6666666666666667 (-15)⟩ ∧
    pointDist float64 ⟨F64.ofInt 0, F64.ofInt 0, F64.ofInt 0, 120000000000, 92⟩
      ⟨F64.ofInt 0, F64.ofInt 0, F64.ofInt 0, 240000000000, 94⟩ = F64.ofInt 0 :=
  ⟨zigzag_emittedAt_four,
    (cumulative_distance_is_running_sum float64 (F64.ofInt 200) zigzag).2.1 4 _
      zigzag_emittedAt_four,
    zigzag_emittedAt_two,
    (mach_pointDist_spot _ _ _ _ _ _).trans (by decide!)⟩

/-- C13: for the antipodal pair 30.52411° N, 0° E and 30.52411° S, 180° E the program's
`haversine` returns NaN, and so does `haversineWithAltitude` for these positions at equal
elevations; NaN is not a number that is at least 0. -/
theorem haversine_returns_nan :
    haversine float64 (F64.ofDec 3052411 (-5)) (F64.ofInt 0)
      (F64.neg (F64.ofDec 3052411 (-5))) (F64.ofInt 180) = F64.nan ∧
    haversineWithAltitude float64 (F64.ofDec 3052411 (-5)) (F64.ofInt 0) (F64.ofInt 0)
      (F64.neg (F64.ofDec 3052411 (-5))) (F64.ofInt 180) (F64.ofInt 0) = F64.nan ∧
    F64.ge F64.nan (F64.ofInt 0) = false := by
  refine ⟨antipode_haversine, ?_, by decide!⟩
  have e := mach_pointDist_mk (F64.ofDec 3052411 (-5)) (F64.ofInt 0) (F64.ofInt 0)
    (F64.neg (F64.ofDec 3052411 (-5))) (F64.ofInt 180) (F64.ofInt 0) 0 0 0 0
  rw [antipode_haversine] at e
  exact e.trans (by decide!)

/-- C16, refuted as stated: at the positive threshold 2 the one row of `roundingTrack` is
written at point 2 with the cumulative distance 3, so with the gap `3 - 0 = 3`; the step
from point 1 to point 2 has the length 1; and `3 - 1 = 2` is not below the threshold. -/
theorem overshoot_reaches_threshold :
    F64.gt (F64.ofInt 2) (F64.ofInt 0) = true ∧
    resample float64 (F64.ofInt 2) roundingTrack
      = [⟨F64.ofInt 3, 120000000000, F64.fin false (2 ^ 53 - 2) (-53), 92,
          F64.ofDec 6666666666666666 (-13)⟩] ∧
    EmittedAt float64 (F64.ofInt 2) roundingTrack 2
      ⟨F64.ofInt 3, 120000000000, F64.fin false (2 ^ 53 - 2) (-53), 92,
        F64.ofDec 6666666666666666 (-13)⟩ ∧
    pointDist float64
      ⟨F64.ofInt 0, F64.ofInt 0, F64.fin false (2 ^ 53 - 1) (-52), 60000000000, 91⟩
      ⟨F64.ofInt 0, F64.ofInt 0, F64.fin false (2 ^ 53 - 2) (-53), 120000000000, 92⟩
      = F64.ofInt 1 ∧
    F64.sub (F64.sub (F64.ofInt 3) (F64.ofInt 0)) (F64.ofInt 1) = F64.ofInt 2 ∧
    F64.lt (F64.ofInt 2) (F64.ofInt 2) = false ∧
    ¬ (F64.toRat (F64.ofInt 3) - 0 - F64.toRat (F64.ofInt 1) < F64.toRat (F64.ofInt 2)) := by
  have h1 : F64.ofInt 1 = F64.fin false (2 ^ 52) (-52) := by decide!
  have h2 : F64.ofInt 2 = F64.fin false (2 ^ 52) (-51) := by decide!
  have h3 : F64.ofInt 3 = F64.fin false (3 * 2 ^ 51) (-51) := by decide!
  refine ⟨by decide!, roundingTrack_rows, roundingTrack_emittedAt_two,
    (mach_pointDist_spot _ _ _ _ _ _).trans (by decide!), by decide!, by decide!, ?_⟩
  rw [h1, h2, h3]
  norm_num [F64.toRat]

/-- C16, amended: for a positive threshold, every row `main` writes is written by the
iteration of a point number `i ≥ 1` for which the test of the loop is false on the running
sum up to the point before, and true on the running sum up to point `i`, which the row
holds, both taken against the distance of the row before (0 for the first row); and the
same holds of a row written by the iteration of point `i`, against the distance at the
last emission before it, and that row is one of the rows of `main`. -/
theorem emission_at_first_crossing (saveIntervalM : F64) (gpx : GPX F64)
    (hpos : F64.gt saveIntervalM (F64.ofInt 0) = true) :
    (∀ (k : Nat) (r : Row F64), (resample float64 saveIntervalM gpx)[k]? = some r →
      ∃ i, 1 ≤ i ∧ EmittedAt float64 saveIntervalM gpx i r ∧
        F64.ge (F64.sub (runningSum float64 ((allPoints gpx).take i))
          (prevDist float64 ((resample float64 saveIntervalM gpx).take k))) saveIntervalM
          = false ∧
        r.distance_m = runningSum float64 ((allPoints gpx).take (i + 1)) ∧
        F64.ge (F64.sub r.distance_m
          (prevDist float64 ((resample float64 saveIntervalM gpx).take k))) saveIntervalM
          = true) ∧
    (∀ (i : Nat) (r : Row F64), EmittedAt float64 saveIntervalM gpx i r →
      r ∈ resample float64 saveIntervalM gpx ∧
      F64.ge (F64.sub (runningSum float64 ((allPoints gpx).take i))
        (stateAfter float64 saveIntervalM gpx i).lastDist) saveIntervalM = false ∧
      r.distance_m = runningSum float64 ((allPoints gpx).take (i + 1)) ∧
      F64.ge (F64.sub r.distance_m
        (stateAfter float64 saveIntervalM gpx i).lastDist) saveIntervalM = true) := by
  have key : ∀ (i : Nat) (r : Row F64), EmittedAt float64 saveIntervalM gpx i r →
      1 ≤ i ∧
      (stateAfter float64 saveIntervalM gpx i).lastDist
        = prevDist float64 (stateAfter float64 saveIntervalM gpx i).written ∧
      F64.ge (F64.sub (runningSum float64 ((allPoints gpx).take i))
        (stateAfter float64 saveIntervalM gpx i).lastDist) saveIntervalM = false ∧
      r.distance_m = runningSum float64 ((allPoints gpx).take (i + 1)) ∧
      F64.ge (F64.sub r.distance_m
        (stateAfter float64 saveIntervalM gpx i).lastDist) saveIntervalM = true := by
    intro i r h
    obtain ⟨q, p, h1, -, -, hT, hL, -, hc, hr⟩ :=
      mach_emittedAt_facts float64 saveIntervalM gpx i r h
    have hf := mach_test_false float64 saveIntervalM
      (f64_sub_self_below saveIntervalM hpos) ((allPoints gpx).take i)
    refine ⟨h1, hL, ?_, by rw [hr], ?_⟩
    · rw [← hT]; exact hf
    · rw [hr]; exact hc
  constructor
  · intro k r h
    obtain ⟨i, hi, hw⟩ := mach_resample_cover float64 saveIntervalM gpx k r h
    obtain ⟨h1, hL, hf, hr, hc⟩ := key i r hi
    rw [hL, hw] at hf hc
    exact ⟨i, h1, hi, hf, hr, hc⟩
  · intro i r h
    obtain ⟨-, -, hf, hr, hc⟩ := key i r h
    exact ⟨mach_emitted_mem float64 saveIntervalM gpx i r h, hf, hr, hc⟩

/-- In `zigzag` at the positive threshold 200 the second row is written at point 4: the
running sum up to point 3 is 450, only 150 above the 300 of the first row, and the running
sum up to point 4 is 600. -/
theorem emission_at_first_crossing_witness :
    F64.gt (F64.ofInt 200) (F64.ofInt 0) = true ∧
    (resample float64 (F64.ofInt 200) zigzag)[1]?
      = some ⟨F64.ofInt 600, 240000000000, F64.ofInt 0, 94, F64.ofDec 6666666666666667 (-15)⟩ ∧
    (∃ i, 1 ≤ i ∧
      EmittedAt float64 (F64.ofInt 200) zigzag i
        ⟨F64.ofInt 600, 240000000000, F64.ofInt 0, 94, F64.ofDec 6666666666666667 (-15)⟩ ∧
      F64.ge (F64.sub (runningSum float64 ((allPoints zigzag).take i))
        (prevDist float64 ((resample float64 (F64.ofInt 200) zigzag).take 1))) (F64.ofInt 200)
        = false ∧
      F64.ofInt 600 = runningSum float64 ((allPoints zigzag).take (i + 1)) ∧
      F64.ge (F64.sub (F64.ofInt 600)
        (prevDist float64 ((resample float64 (F64.ofInt 200) zigzag).take 1))) (F64.ofInt 200)
        = true) ∧
    (stateAfter float64 (F64.ofInt 200) zigzag 4).totalDist = F64.ofInt 450 ∧
    (stateAfter float64 (F64.ofInt 200) zigzag 4).lastDist = F64.ofInt 300 :=
  ⟨by decide!, by rw [zigzag_rows]; rfl,
    (emission_at_first_crossing (F64.ofInt 200) zigzag (by decide!)).1 1 _
      (by rw [zigzag_rows]; rfl),
    by rw [zigzag_state4], by rw [zigzag_state4]⟩

/-- C17: for the antipodal pair 30.52411° N, 0° E and 30.52411° S, 180° E the haversine
term `h` of the program is `1 + 2^-51`, above 1, and for the pair 90.42° N, 0° E and
89.58° N, 180° E it is `-2^-67`, below 0; the distance returned is NaN in both cases, which
is not at most `π * 6371000`. -/
theorem haversine_term_leaves_unit_interval :
    haversineTerm float64 (F64.ofDec 3052411 (-5)) (F64.ofInt 0)
      (F64.neg (F64.ofDec 3052411 (-5))) (F64.ofInt 180) = F64.fin false (2 ^ 52 + 2) (-52) ∧
    F64.gt (F64.fin false (2 ^ 52 + 2) (-52)) (F64.ofInt 1) = true ∧
    haversineTerm float64 (F64.ofDec 9042 (-2)) (F64.ofInt 0) (F64.ofDec 8958 (-2))
      (F64.ofInt 180) = F64.fin true (2 ^ 52) (-119) ∧
    F64.lt (F64.fin true (2 ^ 52) (-119)) (F64.ofInt 0) = true ∧
    haversine float64 (F64.ofDec 3052411 (-5)) (F64.ofInt 0)
      (F64.neg (F64.ofDec 3052411 (-5))) (F64.ofInt 180) = F64.nan ∧
    haversine float64 (F64.ofDec 9042 (-2)) (F64.ofInt 0) (F64.ofDec 8958 (-2))
      (F64.ofInt 180) = F64.nan ∧
    F64.le F64.nan (F64.mul GoMath.Pi (F64.ofInt 6371000)) = false :=
  ⟨antipode_term, by decide!, polar_term, by decide!, antipode_haversine, polar_haversine,
    by decide!⟩

end MachineClaims

end Machine

end GPXSimplifier
